import Mathlib

/-!
Verification of the tcg-shop simulation core against its specification.

Each Python module of the simulation core is shallowly embedded below:
pure functions become Lean functions, mutating methods become functions
returning the updated state, Python `int` becomes `Int`, Python `float`
becomes `ℚ`, Python dicts become total functions with the dict's default
(or association lists where the code iterates over entries), and Python
sets become `Finset`/`List`.  `random`-driven choices are parametrised by
the chosen index.  Theorems about the embedded definitions follow after
all definitions.
-/

namespace TcgShop

/-! ## Common helpers -/

/-- Python `round` on a float: round half to even (banker's rounding),
modelled on `ℚ`. -/
def pyRound (q : ℚ) : ℤ :=
  if q - (⌊q⌋ : ℚ) < 1/2 then ⌊q⌋
  else if 1/2 < q - (⌊q⌋ : ℚ) then ⌊q⌋ + 1
  else if ⌊q⌋ % 2 = 0 then ⌊q⌋ else ⌊q⌋ + 1

/-- Python `s.startswith("single_")`.  (`String.take` reduces in the
kernel, `String.startsWith` does not, so the prefix test is spelled with
`take`.) -/
def starts_with_single (s : String) : Bool :=
  s.take 7 == "single_"

/-- Python `product.replace("single_", "")` on a product key of the form
`single_<rarity>`: drops the 7-character prefix. -/
def single_rarity (s : String) : String :=
  s.drop 7

/-! ## game/config.py -/

/-- Retail price table (`game.config.Prices`); all fields are player-edited
dollar amounts. -/
structure Prices where
  booster : Int
  deck : Int
  single_common : Int
  single_uncommon : Int
  single_rare : Int
  single_epic : Int
  single_legendary : Int
deriving DecidableEq

/-- `game.config.DEFAULT_PRICES`. -/
def DEFAULT_PRICES : Prices := ⟨4, 18, 1, 2, 6, 12, 28⟩

/-- Python `getattr(prices, key)` for the seven product keys.  The source
only evaluates this after a `product_key` guard, so unknown keys (which
would raise in Python) are mapped to `0`. -/
def Prices.get (p : Prices) (key : String) : Int :=
  if key = "booster" then p.booster
  else if key = "deck" then p.deck
  else if key = "single_common" then p.single_common
  else if key = "single_uncommon" then p.single_uncommon
  else if key = "single_rare" then p.single_rare
  else if key = "single_epic" then p.single_epic
  else if key = "single_legendary" then p.single_legendary
  else 0

/-- `game.config.WHOLESALE_UNIT_COSTS` (dict `.get`, `none` when absent). -/
def WHOLESALE_UNIT_COSTS : String → Option Int := fun k =>
  [("booster", (2 : Int)), ("deck", 11), ("single_common", 1),
   ("single_uncommon", 1), ("single_rare", 4), ("single_epic", 7),
   ("single_legendary", 17)].lookup k

/-! ## game/sim/skill_tree.py — data model -/

/-- Aggregated skill modifiers (fractions, e.g. `0.10` = +10%). -/
structure Modifiers where
  sell_price_pct : ℚ
  sales_xp_pct : ℚ
  battle_xp_pct : ℚ
  fixture_discount_pct : ℚ
deriving DecidableEq

/-- The all-zero `Modifiers()` default. -/
def Modifiers.zero : Modifiers := ⟨0, 0, 0, 0⟩

/-! ## game/sim/pricing.py -/

/-- Player-configurable pricing controls.  `mode` is `"absolute"` or
`"markup"`; `markup_pct` is a dict with default `0.0`, modelled as a total
function. -/
structure PricingSettings where
  mode : String
  markup_pct : String → ℚ

/-- `clamp_markup_pct`: clamp markup to 0%..200%. -/
def clamp_markup_pct (pct : ℚ) : ℚ :=
  if pct < 0 then 0
  else if 2 < pct then 2
  else pct

/-- `PricingSettings.get_markup_pct`. -/
def PricingSettings.get_markup_pct (s : PricingSettings) (product_key : String) : ℚ :=
  clamp_markup_pct (s.markup_pct product_key)

/-- `product_key`: the `Prices` field key for a product id, `none` for
unknown products. -/
def product_key (product : String) : Option String :=
  if product = "booster" ∨ product = "deck" then some product
  else if starts_with_single product then some product
  else none

/-- `wholesale_unit_cost`: supplier unit cost for ordering. -/
def wholesale_unit_cost (product : String) : Option Int :=
  match product_key product with
  | none => none
  | some k =>
    match WHOLESALE_UNIT_COSTS k with
    | none => none
    | some v => some (max 1 v)

/-- `compute_retail_price`: retail price from wholesale cost and markup
percent. -/
def compute_retail_price (wholesale_cost : Int) (markup_pct : ℚ) : Int :=
  let base := max 1 wholesale_cost
  let pct := clamp_markup_pct markup_pct
  max 1 (pyRound ((base : ℚ) * (1 + pct)))

/-- `retail_base_price`: retail base price before skill modifiers. -/
def retail_base_price (prices : Prices) (pricing : PricingSettings) (product : String) : Option Int :=
  match product_key product with
  | none => none
  | some k =>
    if pricing.mode = "absolute" then some (prices.get k)
    else
      match wholesale_unit_cost product with
      | none => none
      | some unit => some (compute_retail_price unit (pricing.get_markup_pct k))

/-! ## game/sim/economy_rules.py -/

/-- `base_price_for_product`. -/
def base_price_for_product (prices : Prices) (product : String) (pricing : PricingSettings) : Option Int :=
  retail_base_price prices pricing product

/-- `apply_sell_price_pct`: `max(1, int(round(base * (1.0 + pct))))`. -/
def apply_sell_price_pct (base_price : Int) (sell_price_pct : ℚ) : Int :=
  max 1 (pyRound ((base_price : ℚ) * (1 + sell_price_pct)))

/-- `effective_sale_price`: mode-aware base price further scaled by the
skill `sell_price_pct` modifier. -/
def effective_sale_price (prices : Prices) (product : String) (mods : Modifiers)
    (pricing : PricingSettings) : Option Int :=
  match base_price_for_product prices product pricing with
  | none => none
  | some base => some (apply_sell_price_pct base mods.sell_price_pct)

/-! ## game/scenes/shop_scene.py — demand-side pricing

`_choose_shelf_purchase` builds, in markup mode, a `Prices` value holding
retail base prices (`retail_base_price(...) or fallback` per field) and
feeds it to `choose_purchase`; in absolute mode it feeds the stored
`Prices` directly. -/

/-- Python `retail_base_price(...) or fallback` (falls back when the
result is `None` or `0`). -/
def or_fallback (o : Option Int) (fallback : Int) : Int :=
  match o with
  | none => fallback
  | some v => if v = 0 then fallback else v

/-- The demand `Prices` object built by `_choose_shelf_purchase` in markup
mode. -/
def demand_prices (base : Prices) (pricing : PricingSettings) : Prices :=
  { booster := or_fallback (retail_base_price base pricing "booster") base.booster
    deck := or_fallback (retail_base_price base pricing "deck") base.deck
    single_common := or_fallback (retail_base_price base pricing "single_common") base.single_common
    single_uncommon := or_fallback (retail_base_price base pricing "single_uncommon") base.single_uncommon
    single_rare := or_fallback (retail_base_price base pricing "single_rare") base.single_rare
    single_epic := or_fallback (retail_base_price base pricing "single_epic") base.single_epic
    single_legendary := or_fallback (retail_base_price base pricing "single_legendary") base.single_legendary }

/-- The price `choose_purchase` reads for `product` when weighting the
stochastic purchase choice: a field of the demand `Prices` in markup mode,
of the stored `Prices` otherwise. -/
def weight_price (prices : Prices) (pricing : PricingSettings) (product : String) : Int :=
  if pricing.mode = "markup" then (demand_prices prices pricing).get product
  else prices.get product

/-! ## game/sim/progression.py -/

/-- `MAX_LEVEL`. -/
def MAX_LEVEL : Int := 2000

/-- `xp_to_next`: XP required to go from `level` to `level+1`.  Python `//`
agrees with `Int` division here because `level * level` is non-negative. -/
def xp_to_next (level : Int) : Int :=
  let level := if level < 1 then 1 else level
  if MAX_LEVEL ≤ level then 0
  else 100 + 20 * level + (level * level) / 10

/-- `PlayerProgression`: pure state for player progression. -/
structure PlayerProgression where
  level : Int
  xp : Int
  skill_points : Int
deriving DecidableEq

/-! ## game/sim/skill_tree.py — tree and state -/

/-- `SkillPrereq`. -/
structure SkillPrereq where
  skill_id : String
  rank : Int

/-- `SkillNodeDef` (rendering-only fields `name`, `desc`, `pos` omitted:
they are never read by `can_rank_up`/`rank_up`/`modifiers`). -/
structure SkillNodeDef where
  skill_id : String
  max_rank : Int
  level_req : Int
  prereqs : List SkillPrereq
  mods_per_rank : Modifiers

/-- `SkillTreeDef`: the node dict, as an association list. -/
structure SkillTreeDef where
  nodes : List (String × SkillNodeDef)

/-- `tree.nodes.get(skill_id)`. -/
def SkillTreeDef.get (t : SkillTreeDef) (skill_id : String) : Option SkillNodeDef :=
  t.nodes.lookup skill_id

/-- `SkillTreeState`: player-owned ranks (dict with default `0`, modelled
as a total function) plus the modifier-cache dirty bit. -/
structure SkillTreeState where
  ranks : String → Int
  dirty : Bool

/-- `SkillTreeState.rank`: `ranks.get(skill_id, 0)`. -/
def SkillTreeState.rank (st : SkillTreeState) (skill_id : String) : Int :=
  st.ranks skill_id

/-- `SkillTreeState.can_rank_up` (the human-readable reason string of the
source's returned pair is dropped; only the boolean is modelled). -/
def can_rank_up (st : SkillTreeState) (tree : SkillTreeDef) (skill_id : String)
    (prog : PlayerProgression) : Bool :=
  match tree.get skill_id with
  | none => false
  | some node =>
    if node.max_rank ≤ st.rank skill_id then false
    else if prog.skill_points ≤ 0 then false
    else if prog.level < node.level_req then false
    else if node.prereqs.any (fun pr => decide (st.rank pr.skill_id < pr.rank)) then false
    else true

/-- `SkillTreeState.rank_up`: returns the success flag and the updated
state and progression. -/
def rank_up (st : SkillTreeState) (tree : SkillTreeDef) (skill_id : String)
    (prog : PlayerProgression) : Bool × SkillTreeState × PlayerProgression :=
  if can_rank_up st tree skill_id prog then
    (true,
     { ranks := fun x => if x = skill_id then st.rank skill_id + 1 else st.ranks x
       dirty := true },
     { prog with skill_points := prog.skill_points - 1 })
  else (false, st, prog)

/-! ## game/sim/inventory.py -/

/-- `RARITIES`. -/
def RARITIES : List String := ["common", "uncommon", "rare", "epic", "legendary"]

/-- `InventoryOrder`: a pending delivery.  `singles` is iterated with
`.items()` by `apply_order`, so it is kept as an association list. -/
structure InventoryOrder where
  boosters : Int
  decks : Int
  singles : List (String × Int)
  cost : Int
  arrival_day : Int
  deliver_at : ℚ
deriving DecidableEq

/-- `Inventory`: warehouse counts.  `singles` is a dict read with
`.get(r, 0)`, modelled as a total function. -/
structure Inventory where
  booster_packs : Int
  decks : Int
  singles : String → Int

/-- `Inventory.add_singles`. -/
def Inventory.add_singles (inv : Inventory) (rarity : String) (amount : Int) : Inventory :=
  { inv with singles := fun r => if r = rarity then inv.singles rarity + amount else inv.singles r }

/-- `Inventory.apply_order`: add the order's contents to the warehouse. -/
def Inventory.apply_order (inv : Inventory) (order : InventoryOrder) : Inventory :=
  let inv1 := { inv with booster_packs := inv.booster_packs + order.boosters }
  let inv2 := { inv1 with decks := inv1.decks + order.decks }
  order.singles.foldl (fun acc rq => acc.add_singles rq.1 rq.2) inv2

/-! ## game/core/app.py — pending orders -/

/-- `App.process_pending_orders`: deliver every order whose timer has
elapsed, keep the rest.  (Python's back-compat `order.deliver_at or 0.0`
evaluates to the same number, so it is elided.)  Returns the updated
inventory and the remaining pending list. -/
def process_pending_orders (now : ℚ) (orders : List InventoryOrder) (inv : Inventory) :
    Inventory × List InventoryOrder :=
  orders.foldl
    (fun acc order =>
      if order.deliver_at ≤ now then (acc.1.apply_order order, acc.2)
      else (acc.1, acc.2 ++ [order]))
    (inv, [])

/-! ## game/sim/shop.py -/

/-- `ShopObject`. -/
structure ShopObject where
  kind : String
  tile : Int × Int
deriving DecidableEq

/-- `ShelfStock`. -/
structure ShelfStock where
  product : String
  qty : Int
  max_qty : Int
  cards : List String
deriving DecidableEq

/-- `ShopLayout`: the placed objects and the shelf-stock dict (kept as an
association list keyed by the `"x,y"` string key). -/
structure ShopLayout where
  grid : Int × Int
  objects : List ShopObject
  shelf_stocks : List (String × ShelfStock)

/-- `ShopLayout._key`: the `f"{x},{y}"` string key of a tile. -/
def tile_key (tile : Int × Int) : String :=
  toString tile.1 ++ "," ++ toString tile.2

/-- `ShopLayout._in_bounds`. -/
def layout_in_bounds (grid : Int × Int) (tile : Int × Int) : Bool :=
  decide (0 ≤ tile.1 ∧ tile.1 < grid.1 ∧ 0 ≤ tile.2 ∧ tile.2 < grid.2)

/-- `ShopLayout.object_at`: first placed object on the tile, if any. -/
def ShopLayout.object_at (l : ShopLayout) (tile : Int × Int) : Option ShopObject :=
  l.objects.find? (fun obj => obj.tile == tile)

/-- `dict.setdefault(key, ShelfStock("empty", 0))` on the shelf-stock
association list (`max_qty` defaults to 10). -/
def shelf_stocks_setdefault (stocks : List (String × ShelfStock)) (key : String) :
    List (String × ShelfStock) :=
  match stocks.lookup key with
  | some _ => stocks
  | none => stocks ++ [(key, ⟨"empty", 0, 10, []⟩)]

/-- `ShopLayout.place`: insert a new object only on an empty in-bounds
tile; placing a shelf registers an empty `ShelfStock`. -/
def ShopLayout.place (l : ShopLayout) (kind : String) (tile : Int × Int) : ShopLayout :=
  if ¬ layout_in_bounds l.grid tile then l
  else if (l.object_at tile).isSome then l
  else
    let l2 := { l with objects := l.objects ++ [⟨kind, tile⟩] }
    if kind = "shelf" then
      { l2 with shelf_stocks := shelf_stocks_setdefault l2.shelf_stocks (tile_key tile) }
    else l2

/-! ## game/sim/fixtures.py -/

/-- `FixtureInventory`: owned-but-not-placed fixture counts. -/
structure FixtureInventory where
  shelves : Int
  counters : Int
  posters : Int
deriving DecidableEq

/-- `FixtureInventory.consume_for_place`: returns the success flag and the
updated counts (kinds other than the three fixtures succeed without
consuming). -/
def consume_for_place (f : FixtureInventory) (kind : String) : Bool × FixtureInventory :=
  if kind = "shelf" then
    if f.shelves ≤ 0 then (false, f) else (true, { f with shelves := f.shelves - 1 })
  else if kind = "counter" then
    if f.counters ≤ 0 then (false, f) else (true, { f with counters := f.counters - 1 })
  else if kind = "poster" then
    if f.posters ≤ 0 then (false, f) else (true, { f with posters := f.posters - 1 })
  else (true, f)

/-! ## game/core/app.py — placement -/

/-- `App.try_place_object`: consume an owned fixture, attempt the
placement, refund on failure.  Returns the success flag, the updated
fixture counts and the updated layout. -/
def try_place_object (fix : FixtureInventory) (layout : ShopLayout) (kind : String)
    (tile : Int × Int) : Bool × FixtureInventory × ShopLayout :=
  let needs_fixture := ["shelf", "counter", "poster"].contains kind
  let consumed := if needs_fixture then consume_for_place fix kind else (true, fix)
  if consumed.1 = false then (false, consumed.2, layout)
  else
    let before := layout.objects.length
    let layout2 := layout.place kind tile
    let after := layout2.objects.length
    let placed := decide (before < after)
    let fix2 :=
      if placed = false ∧ needs_fixture = true then
        if kind = "shelf" then { consumed.2 with shelves := consumed.2.shelves + 1 }
        else if kind = "counter" then { consumed.2 with counters := consumed.2.counters + 1 }
        else if kind = "poster" then { consumed.2 with posters := consumed.2.posters + 1 }
        else consumed.2
      else consumed.2
    (placed, fix2, layout2)

/-! ## game/cards/collection.py and game/cards/deck.py -/

/-- `CardCollection`: owned card counts (`cards.get(card_id, 0)`, so a
total function; Python pops zeroed entries, which is observationally the
same under the default-0 read). -/
structure CardCollection where
  cards : String → Int

/-- `CardCollection.get`. -/
def CardCollection.get (c : CardCollection) (card_id : String) : Int :=
  c.cards card_id

/-- `CardCollection.remove`: returns the success flag and the updated
collection. -/
def CardCollection.remove (c : CardCollection) (card_id : String) (amount : Int) :
    Bool × CardCollection :=
  if amount ≤ c.cards card_id then
    (true, { cards := fun x => if x = card_id then c.cards card_id - amount else c.cards x })
  else (false, c)

/-- The active `Deck`: card counts read with `deck.cards.get(cid, 0)`. -/
structure Deck where
  cards : String → Int

/-! ## game/sim/actors.py — restock operations

`shelf_stocks : dict[str, ShelfStock]` is modelled as a partial map from
keys to stocks, since these operations only look up and replace the
planned shelf. -/

/-- The shelf-stock dict as read/written by the actor operations. -/
def ShelfMap : Type := String → Option ShelfStock

/-- Replace one shelf's stock in the map (in Python the `ShelfStock` is
mutated in place). -/
def ShelfMap.set (m : ShelfMap) (key : String) (stock : ShelfStock) : ShelfMap :=
  fun k => if k = key then some stock else m k

/-- `RestockPlan`. -/
structure RestockPlan where
  shelf_key : String
  product : String
  amount : Int
  card_id : Option String

/-- `Staff`: only the carry-buffer fields are modelled — they are the only
staff fields read or written by `_deliver_from_carry`
(`carry_singles.get(r, 0)` is a dict with default 0). -/
structure Staff where
  carry_boosters : Int
  carry_decks : Int
  carry_singles : String → Int

/-- Result of `apply_restock`: the returned count plus the mutated
shelf map, inventory and collection. -/
structure RestockOut where
  moved : Int
  shelves : ShelfMap
  inv : Inventory
  coll : CardCollection

/-- `apply_restock` (actors.py): apply a restock plan from the warehouse
inventory / card collection.  Returns the number of items stocked. -/
def apply_restock (plan : RestockPlan) (shelves : ShelfMap) (inv : Inventory)
    (coll : CardCollection) (deck : Deck) (amount : Int) : RestockOut :=
  match shelves plan.shelf_key with
  | none => ⟨0, shelves, inv, coll⟩
  | some stock =>
    if stock.max_qty ≤ stock.qty then ⟨0, shelves, inv, coll⟩
    else
      let capacity := stock.max_qty - stock.qty
      match plan.card_id with
      | some cid =>
        -- Listed card shelf
        let owned := coll.get cid
        let in_deck := deck.cards cid
        if owned ≤ in_deck then ⟨0, shelves, inv, coll⟩
        else if stock.cards = [] then ⟨0, shelves, inv, coll⟩
        else
          let rem := coll.remove cid 1
          if rem.1 = false then ⟨0, shelves, inv, rem.2⟩
          else
            let cards2 := stock.cards ++ [cid]
            ⟨1,
             shelves.set plan.shelf_key
               { stock with cards := cards2, qty := (cards2.length : Int), product := plan.product },
             inv, rem.2⟩
      | none =>
        -- Bulk inventory
        let to_add0 := min amount capacity
        if plan.product = "booster" then
          let to_add := min to_add0 inv.booster_packs
          if to_add ≤ 0 then ⟨0, shelves, inv, coll⟩
          else
            ⟨to_add,
             shelves.set plan.shelf_key
               { stock with product := plan.product, cards := [], qty := stock.qty + to_add },
             { inv with booster_packs := inv.booster_packs - to_add }, coll⟩
        else if plan.product = "deck" then
          let to_add := min to_add0 inv.decks
          if to_add ≤ 0 then ⟨0, shelves, inv, coll⟩
          else
            ⟨to_add,
             shelves.set plan.shelf_key
               { stock with product := plan.product, cards := [], qty := stock.qty + to_add },
             { inv with decks := inv.decks - to_add }, coll⟩
        else if starts_with_single plan.product then
          let rarity := single_rarity plan.product
          let available := inv.singles rarity
          let to_add := min to_add0 available
          if to_add ≤ 0 then ⟨0, shelves, inv, coll⟩
          else
            ⟨to_add,
             shelves.set plan.shelf_key
               { stock with product := plan.product, cards := [], qty := stock.qty + to_add },
             { inv with
                 singles := fun r => if r = rarity then available - to_add else inv.singles r },
             coll⟩
        else ⟨0, shelves, inv, coll⟩

/-- Result of `_deliver_from_carry`. -/
structure DeliverOut where
  moved : Int
  staff : Staff
  shelves : ShelfMap

/-- The product-selection chain at the top of `_deliver_from_carry`: if
the shelf is truly empty, allow the plan to set a product; if still
empty, fall back to whatever the staff carries. -/
def deliver_product (staff : Staff) (plan : RestockPlan) (stock : ShelfStock) : String :=
  let product1 :=
    if stock.product = "empty" then
      (if plan.product ≠ "empty" then plan.product else stock.product)
    else stock.product
  if product1 = "empty" then
    (if 0 < staff.carry_boosters then "booster"
     else if 0 < staff.carry_decks then "deck"
     else
       match RARITIES.find? (fun r => decide (0 < staff.carry_singles r)) with
       | some r => "single_" ++ r
       | none => product1)
  else product1

/-- `_deliver_from_carry` (actors.py): restock a shelf using the staff's
carried items (no inventory reads). -/
def deliver_from_carry (staff : Staff) (plan : RestockPlan) (shelves : ShelfMap) : DeliverOut :=
  match shelves plan.shelf_key with
  | none => ⟨0, staff, shelves⟩
  | some stock =>
    if stock.max_qty ≤ 0 then ⟨0, staff, shelves⟩
    else if stock.max_qty ≤ stock.qty then ⟨0, staff, shelves⟩
    else
      let capacity := stock.max_qty - stock.qty
      if capacity ≤ 0 then ⟨0, staff, shelves⟩
      else
        let product := deliver_product staff plan stock
        if product = "booster" then
          let to_add := min capacity staff.carry_boosters
          if to_add ≤ 0 then ⟨0, staff, shelves⟩
          else
            ⟨to_add, { staff with carry_boosters := staff.carry_boosters - to_add },
             shelves.set plan.shelf_key
               { stock with product := "booster", qty := stock.qty + to_add }⟩
        else if product = "deck" then
          let to_add := min capacity staff.carry_decks
          if to_add ≤ 0 then ⟨0, staff, shelves⟩
          else
            ⟨to_add, { staff with carry_decks := staff.carry_decks - to_add },
             shelves.set plan.shelf_key
               { stock with product := "deck", qty := stock.qty + to_add }⟩
        else if starts_with_single product then
          let rarity := single_rarity product
          let to_add := min capacity (staff.carry_singles rarity)
          if to_add ≤ 0 then ⟨0, staff, shelves⟩
          else
            ⟨to_add,
             { staff with
                 carry_singles := fun r =>
                   if r = rarity then staff.carry_singles rarity - to_add
                   else staff.carry_singles r },
             shelves.set plan.shelf_key
               { stock with product := product, qty := stock.qty + to_add, cards := [] }⟩
        else ⟨0, staff, shelves⟩

/-! ## game/scenes/shop_scene.py — purchase processing -/

/-- Result of `_process_purchase`: the mutated shelf map and money (the
XP/analytics side-effects are out of scope for the shelf claims). -/
structure PurchaseOut where
  shelves : ShelfMap
  money : Int

/-- `_process_purchase`: execute a customer purchase against a shelf.
`pick` parametrises `rng.choice(stock.cards)` — the chosen listed card is
`stock.cards[pick % len(stock.cards)]`, and `list.remove` erases its first
occurrence.  When the shelf empties, `qty` is clamped to `0` and `cards`
is cleared, but `product` deliberately keeps its last value (source
comment: "Keep the last product type so staff can restock it"). -/
def process_purchase (purchase : String × String) (prices : Prices) (mods : Modifiers)
    (pricing : PricingSettings) (pick : Nat) (shelves : ShelfMap) (money : Int) : PurchaseOut :=
  let shelf_key := purchase.1
  let product := purchase.2
  match shelves shelf_key with
  | none => ⟨shelves, money⟩
  | some stock =>
    if stock.qty ≤ 0 then ⟨shelves, money⟩
    else
      match effective_sale_price prices product mods pricing with
      | none => ⟨shelves, money⟩
      | some price =>
        let stock1 :=
          if starts_with_single product && !stock.cards.isEmpty then
            let sold := stock.cards.getD (pick % stock.cards.length) ""
            let cards2 := stock.cards.erase sold
            { stock with cards := cards2, qty := (cards2.length : Int) }
          else { stock with qty := stock.qty - 1 }
        let stock2 :=
          if stock1.qty ≤ 0 then { stock1 with qty := 0, cards := [] } else stock1
        ⟨shelves.set shelf_key stock2, money + price⟩

/-! Specification-side shelf invariants (§3 of the spec). -/

/-- The §3 shelf invariant: `0 ≤ qty ≤ max_qty`; if `cards` is non-empty,
`qty == len(cards)`. -/
def ShelfOk (s : ShelfStock) : Prop :=
  0 ≤ s.qty ∧ s.qty ≤ s.max_qty ∧ (s.cards ≠ [] → s.qty = (s.cards.length : Int))

/-- The shelf invariant strengthened with product consistency: a shelf
with listed cards carries a `single_<rarity>` product. -/
def ShelfOkStrong (s : ShelfStock) : Prop :=
  ShelfOk s ∧ (s.cards ≠ [] → starts_with_single s.product = true)

/-- Every shelf in the map satisfies the strengthened invariant. -/
def ShelfMapOk (m : ShelfMap) : Prop :=
  ∀ k s, m k = some s → ShelfOkStrong s

/-! ## game/sim/analytics.py and game/sim/forecast.py -/

/-- `DailyMetrics`, restricted to the one field the forecaster reads
(`units_sold` is a dict read with `.get(product, 0)`). -/
structure DailyMetrics where
  units_sold : String → Int

/-- `AnalyticsState`, restricted to the per-day metrics dict
(`analytics.days.get(dd)`). -/
structure AnalyticsState where
  days : Int → Option DailyMetrics

/-- `game.config.DAY_DURATION_SECONDS`. -/
def DAY_DURATION_SECONDS : ℚ := 300

/-- `RestockSuggestion` (the human-readable `reason` string is omitted). -/
structure RestockSuggestion where
  product : String
  recommended_qty : Int
  avg_daily_units : ℚ
  current_total_stock : Int
  lead_time_s : ℚ
deriving DecidableEq

/-- `_product_keys`. -/
def forecast_product_keys : List String :=
  ["booster", "deck", "single_common", "single_uncommon", "single_rare",
   "single_epic", "single_legendary"]

/-- `Python range(d, max(0, d - n), -1)`: the days `d, d-1, ...,
max(0, d-n) + 1`. -/
def trailing_days (d n : Int) : List Int :=
  (List.range (d - max 0 (d - n)).toNat).map (fun i => d - (i : Int))

/-- `sales_avg_daily_units`: average daily units sold over the last `n`
days that have metrics (`0.0` when no day in the window has any). -/
def sales_avg_daily_units (analytics : AnalyticsState) (day : Int) (product : String)
    (window_days : Int) : ℚ :=
  let d := max 1 day
  let n := max 1 window_days
  let totals :=
    (trailing_days d n).foldl
      (fun (acc : Int × Int) dd =>
        match analytics.days dd with
        | none => acc
        | some m => (acc.1 + m.units_sold product, acc.2 + 1))
      (0, 0)
  if totals.2 ≤ 0 then 0 else (totals.1 : ℚ) / (totals.2 : ℚ)

/-- `_current_stock_for_product`: warehouse stock plus all shelf stock of
the product (listed-card shelves count as singles of their rarity). -/
def current_stock_for_product (product : String) (inv : Inventory)
    (shelves : List (String × ShelfStock)) : Int :=
  let base :=
    if product = "booster" then inv.booster_packs
    else if product = "deck" then inv.decks
    else if starts_with_single product then inv.singles (single_rarity product)
    else 0
  shelves.foldl
    (fun total ks =>
      let stock := ks.2
      if stock.qty ≤ 0 then total
      else if !stock.cards.isEmpty then
        (if starts_with_single product &&
            (!stock.cards.isEmpty && stock.product == "single_" ++ single_rarity product) then
           total + (stock.cards.length : Int)
         else total)
      else if stock.product = product then total + stock.qty
      else total)
    base

/-- The Python sort key `(s.recommended_qty, s.avg_daily_units)` compared
descending (`reverse=True`): `a` may precede `b`. -/
def suggestion_key_ge (a b : RestockSuggestion) : Bool :=
  decide (b.recommended_qty < a.recommended_qty ∨
    (b.recommended_qty = a.recommended_qty ∧ b.avg_daily_units ≤ a.avg_daily_units))

/-- `compute_restock_suggestions`: per-product reorder recommendations,
sorted descending by `(recommended_qty, avg_daily_units)` and truncated
to `max(1, max_suggestions)` entries. -/
def compute_restock_suggestions (analytics : AnalyticsState) (day : Int) (inv : Inventory)
    (shelves : List (String × ShelfStock)) (lead_time_seconds : ℚ) (window_days : Int)
    (max_suggestions : Int) : List RestockSuggestion :=
  let lead := max 1 lead_time_seconds
  let day_seconds := max 1 DAY_DURATION_SECONDS
  let sug := forecast_product_keys.filterMap (fun product =>
    let avg_daily := sales_avg_daily_units analytics day product window_days
    if avg_daily ≤ 0 then none
    else
      -- Convert daily demand into lead-time demand.
      let demand := (avg_daily / day_seconds) * lead
      -- Safety: keep a small buffer (10% of daily demand, at least 1).
      let safety := max 1 (avg_daily * (1/10))
      let want := demand + safety
      let current := current_stock_for_product product inv shelves
      let rec0 := max 0 ⌈want - (current : ℚ)⌉
      if rec0 ≤ 0 then none
      else some ⟨product, rec0, avg_daily, current, lead⟩)
  (sug.mergeSort suggestion_key_ge).take (max 1 max_suggestions).toNat

/-! ## game/sim/actors.py — BFS pathfinding -/

/-- A tile coordinate. -/
abbrev Tile := Int × Int

/-- Out-of-bounds test from `_is_walkable`. -/
def tile_oob (grid : Tile) (t : Tile) : Bool :=
  t.1 < 0 || t.2 < 0 || grid.1 ≤ t.1 || grid.2 ≤ t.2

/-- `_is_walkable`: in-bounds and not in the blocked set (the Python
`set` of blocked tiles is modelled by a list and membership). -/
def is_walkable (grid : Tile) (blocked : List Tile) (t : Tile) : Bool :=
  !tile_oob grid t && !blocked.contains t

/-- The four neighbour candidates of `_bfs_path`, in source order. -/
def neighbors4 (t : Tile) : List Tile :=
  [(t.1 + 1, t.2), (t.1 - 1, t.2), (t.1, t.2 + 1), (t.1, t.2 - 1)]

/-- The BFS working state: FIFO queue, predecessor dict and seen set. -/
structure BfsState where
  q : List Tile
  prev : Tile → Option Tile
  seen : Finset Tile

/-- One neighbour visit inside the `for` loop of `_bfs_path`: a fresh
walkable neighbour is added to `seen` and `prev` and enqueued. -/
def bfs_visit (grid : Tile) (blocked : List Tile) (cur : Tile) (st : BfsState)
    (nxt : Tile) : BfsState :=
  if nxt ∈ st.seen then st
  else if ¬ is_walkable grid blocked nxt then st
  else ⟨st.q ++ [nxt], fun t => if t = nxt then some cur else st.prev t, insert nxt st.seen⟩

/-- The inner `for` loop of `_bfs_path`: visit `cur`'s neighbours, adding
fresh walkable ones to `seen`, `prev` and the queue. -/
def bfs_expand (grid : Tile) (blocked : List Tile) (cur : Tile) (st : BfsState) : BfsState :=
  (neighbors4 cur).foldl (bfs_visit grid blocked cur) st

/-- The `while q:` loop of `_bfs_path`.  Python's loop is unbounded; here
a fuel argument (chosen large enough, see `bfs_fuel`) makes it total.
`none` is the `while`/`else` branch: the queue drained without reaching
the goal. -/
def bfs_loop (grid : Tile) (blocked : List Tile) (goal : Tile) :
    Nat → BfsState → Option (Tile → Option Tile)
  | 0, _ => none
  | _ + 1, ⟨[], _, _⟩ => none
  | fuel + 1, ⟨cur :: rest, prev, seen⟩ =>
    if cur = goal then some prev
    else bfs_loop grid blocked goal fuel (bfs_expand grid blocked cur ⟨rest, prev, seen⟩)

/-- The backward path reconstruction of `_bfs_path`.  Python appends to
`path_rev` and reverses at the end; consing onto the accumulator builds
the same forward-ordered list.  `none` covers fuel exhaustion and a
missing predecessor (a `KeyError` in Python), neither of which occurs for
BFS-produced predecessor maps. -/
def path_reconstruct (prev : Tile → Option Tile) (start : Tile) :
    Nat → Tile → List Tile → Option (List Tile)
  | 0, _, _ => none
  | fuel + 1, cur, acc =>
    if cur = start then some acc
    else
      match prev cur with
      | none => none
      | some p => path_reconstruct prev start fuel p (cur :: acc)

/-- Fuel that the BFS and the reconstruction can never exhaust: strictly
more than the number of in-bounds tiles plus one. -/
def bfs_fuel (grid : Tile) : Nat :=
  grid.1.toNat * grid.2.toNat + 2

/-- `_bfs_path`: list of tiles to step through (excluding `start`), or
`none` if unreachable. -/
def bfs_path (grid : Tile) (blocked : List Tile) (start goal : Tile) : Option (List Tile) :=
  if start = goal then some []
  else if ¬ is_walkable grid blocked goal then none
  else
    match bfs_loop grid blocked goal (bfs_fuel grid) ⟨[start], fun _ => none, {start}⟩ with
    | none => none
    | some prev => path_reconstruct prev start (bfs_fuel grid) goal []

/-- The caller-side `_bfs_path(...) or []` degradation to an empty path. -/
def bfs_path_or_empty (grid : Tile) (blocked : List Tile) (start goal : Tile) : List Tile :=
  (bfs_path grid blocked start goal).getD []

/-! Specification-side path predicates for the BFS claims. -/

/-- One BFS step: `b` is one of the four neighbour candidates of `a`. -/
def adj4 (a b : Tile) : Prop := b ∈ neighbors4 a

/-- `walk_chain grid blocked a p`: from `a`, the tiles of `p` are stepped
through in order, each 4-adjacent to its predecessor and walkable. -/
def walk_chain (grid : Tile) (blocked : List Tile) : Tile → List Tile → Prop
  | _, [] => True
  | a, t :: rest =>
    adj4 a t ∧ is_walkable grid blocked t = true ∧ walk_chain grid blocked t rest

/-- `path_to grid blocked start goal p`: `p` is a valid walk from `start`
ending at `goal` (the empty path is valid exactly when `start = goal`). -/
def path_to (grid : Tile) (blocked : List Tile) (start goal : Tile) (p : List Tile) : Prop :=
  walk_chain grid blocked start p ∧ p.getLastD start = goal

/-- The finite set of in-bounds tiles of a grid. -/
def bounds_finset (grid : Tile) : Finset Tile :=
  Finset.Ico 0 grid.1 ×ˢ Finset.Ico 0 grid.2

/-- The loop invariant of the embedded BFS, with a ghost depth
assignment `dep`. -/
structure BfsInv (grid : Tile) (blocked : List Tile) (start goal : Tile)
    (st : BfsState) (dep : Tile → Nat) : Prop where
  start_seen : start ∈ st.seen
  dep_start : dep start = 0
  chain : ∀ t ∈ st.seen, t ≠ start →
    ∃ p, st.prev t = some p ∧ p ∈ st.seen ∧ adj4 p t ∧
      is_walkable grid blocked t = true ∧ dep t = dep p + 1
  q_seen : ∀ t ∈ st.q, t ∈ st.seen
  q_sorted : st.q.Pairwise (fun a b => dep a ≤ dep b)
  q_window : ∀ a ∈ st.q, ∀ b ∈ st.q, dep b ≤ dep a + 1
  processed_le : ∀ u ∈ st.seen, u ∉ st.q → ∀ t ∈ st.q, dep u ≤ dep t
  processed_closed : ∀ u ∈ st.seen, u ∉ st.q →
    ∀ v ∈ neighbors4 u, is_walkable grid blocked v = true → v ∈ st.seen ∧ dep v ≤ dep u + 1
  goal_q : goal ∈ st.seen → goal ∈ st.q
  seen_dom : st.seen ⊆ insert start (bounds_finset grid)
  dep_lt_card : ∀ t ∈ st.seen, dep t < st.seen.card

/-- What holds of the predecessor map when the BFS loop finds the goal:
a depth function whose chains reconstruct walkable shortest paths. -/
def GoalFound (grid : Tile) (blocked : List Tile) (start goal : Tile)
    (prev : Tile → Option Tile) : Prop :=
  ∃ (seen : Finset Tile) (dep : Tile → Nat),
    start ∈ seen ∧ dep start = 0 ∧
    (∀ t ∈ seen, t ≠ start →
      ∃ p, prev t = some p ∧ p ∈ seen ∧ adj4 p t ∧
        is_walkable grid blocked t = true ∧ dep t = dep p + 1) ∧
    goal ∈ seen ∧
    (∀ t ∈ seen, dep t < seen.card) ∧
    seen ⊆ insert start (bounds_finset grid) ∧
    (∀ p2, path_to grid blocked start goal p2 → dep goal ≤ p2.length)

/-! # Theorems -/

/-! ## Helper lemmas about `pyRound` -/

theorem pyRound_intCast (n : ℤ) : pyRound (n : ℚ) = n := by
  unfold pyRound
  simp

theorem floor_le_pyRound (q : ℚ) : ⌊q⌋ ≤ pyRound q := by
  unfold pyRound
  split_ifs <;> omega

theorem pyRound_le_floor_add_one (q : ℚ) : pyRound q ≤ ⌊q⌋ + 1 := by
  unfold pyRound
  split_ifs <;> omega

theorem pyRound_mono {a b : ℚ} (h : a ≤ b) : pyRound a ≤ pyRound b := by
  rcases lt_or_eq_of_le (Int.floor_le_floor h) with hf | hf
  · calc pyRound a ≤ ⌊a⌋ + 1 := pyRound_le_floor_add_one a
      _ ≤ ⌊b⌋ := by omega
      _ ≤ pyRound b := floor_le_pyRound b
  · unfold pyRound
    have hfr : a - (⌊a⌋ : ℚ) ≤ b - (⌊b⌋ : ℚ) := by
      rw [← hf]; linarith
    rw [hf] at hfr ⊢
    split_ifs <;> first
      | omega
      | (exfalso; linarith)

/-! ## C9 — XP curve -/

/-- C9: for every level `L` with `1 ≤ L < MAX_LEVEL`, `xp_to_next L` is
strictly positive; `xp_to_next` is non-decreasing on that range
(`xp_to_next L ≤ xp_to_next (L+1)` whenever `L+1 < MAX_LEVEL`); and
`xp_to_next L = 0` for every `L ≥ MAX_LEVEL`. -/
theorem c9_xp_to_next_curve (level : Int) :
    (1 ≤ level → level < MAX_LEVEL → 0 < xp_to_next level) ∧
    (1 ≤ level → level + 1 < MAX_LEVEL → xp_to_next level ≤ xp_to_next (level + 1)) ∧
    (MAX_LEVEL ≤ level → xp_to_next level = 0) := by
  refine ⟨fun h1 hlt => ?_, fun h1 hlt => ?_, fun hge => ?_⟩
  · unfold xp_to_next MAX_LEVEL at *
    have hsq : 0 ≤ level * level := mul_self_nonneg level
    simp only [if_neg (by omega : ¬ level < 1), if_neg (by omega : ¬ (2000:Int) ≤ level)]
    generalize level * level = m at hsq
    omega
  · unfold xp_to_next MAX_LEVEL at *
    have hsq : 0 ≤ level * level := mul_self_nonneg level
    have hmono : level * level ≤ (level + 1) * (level + 1) := by nlinarith
    simp only [if_neg (by omega : ¬ level < 1), if_neg (by omega : ¬ (2000:Int) ≤ level),
      if_neg (by omega : ¬ level + 1 < 1), if_neg (by omega : ¬ (2000:Int) ≤ level + 1)]
    generalize level * level = m at hsq hmono
    generalize (level + 1) * (level + 1) = m2 at hmono
    omega
  · unfold xp_to_next MAX_LEVEL at *
    have : ¬ ((if level < 1 then 1 else level) < 1) := by split_ifs <;> omega
    simp only [if_pos (show (2000:Int) ≤ (if level < 1 then 1 else level) by split_ifs <;> omega)]

/-- Witness for C9 at `level = 1`. -/
theorem c9_xp_to_next_curve_witness :
    0 < xp_to_next 1 ∧ xp_to_next 1 ≤ xp_to_next 2 ∧ xp_to_next 2000 = 0 :=
  ⟨(c9_xp_to_next_curve 1).1 (by decide) (by decide),
   (c9_xp_to_next_curve 1).2.1 (by decide) (by decide),
   (c9_xp_to_next_curve 2000).2.2 (by decide)⟩

/-! ## C5 — skill rank-up -/

theorem can_rank_up_none {st : SkillTreeState} {tree : SkillTreeDef} {skill_id : String}
    {prog : PlayerProgression} (h : tree.get skill_id = none) :
    can_rank_up st tree skill_id prog = false := by
  unfold can_rank_up
  rw [h]

theorem can_rank_up_some {st : SkillTreeState} {tree : SkillTreeDef} {skill_id : String}
    {prog : PlayerProgression} {node : SkillNodeDef} (h : tree.get skill_id = some node) :
    can_rank_up st tree skill_id prog = true ↔
      ¬ (node.max_rank ≤ st.rank skill_id ∨ prog.skill_points ≤ 0 ∨
         prog.level < node.level_req ∨ ∃ pr ∈ node.prereqs, st.rank pr.skill_id < pr.rank) := by
  unfold can_rank_up
  rw [h]
  simp only [List.any_eq_true, decide_eq_true_eq]
  split_ifs <;> simp [*]

/-- C5: `rank_up` returns `false` and leaves the ranks and skill points
unchanged whenever the skill is unknown, its rank is at max rank, there
are no skill points, the level requirement is unmet, or a prerequisite
rank is unmet; otherwise it returns `true`, increments that skill's rank
by exactly 1 and decrements the skill points by exactly 1. -/
theorem c5_rank_up_spec (tree : SkillTreeDef) (skill_id : String) (st : SkillTreeState)
    (prog : PlayerProgression) :
    (tree.get skill_id = none →
      (rank_up st tree skill_id prog).1 = false ∧
      (rank_up st tree skill_id prog).2.1 = st ∧
      (rank_up st tree skill_id prog).2.2 = prog) ∧
    (∀ node, tree.get skill_id = some node →
      ((node.max_rank ≤ st.rank skill_id ∨ prog.skill_points ≤ 0 ∨
        prog.level < node.level_req ∨ ∃ pr ∈ node.prereqs, st.rank pr.skill_id < pr.rank) →
        (rank_up st tree skill_id prog).1 = false ∧
        (rank_up st tree skill_id prog).2.1 = st ∧
        (rank_up st tree skill_id prog).2.2 = prog) ∧
      (¬ (node.max_rank ≤ st.rank skill_id ∨ prog.skill_points ≤ 0 ∨
          prog.level < node.level_req ∨ ∃ pr ∈ node.prereqs, st.rank pr.skill_id < pr.rank) →
        (rank_up st tree skill_id prog).1 = true ∧
        (rank_up st tree skill_id prog).2.1.ranks skill_id = st.rank skill_id + 1 ∧
        (∀ x, x ≠ skill_id → (rank_up st tree skill_id prog).2.1.ranks x = st.ranks x) ∧
        (rank_up st tree skill_id prog).2.2.skill_points = prog.skill_points - 1 ∧
        (rank_up st tree skill_id prog).2.2.level = prog.level ∧
        (rank_up st tree skill_id prog).2.2.xp = prog.xp)) := by
  constructor
  · intro hn
    unfold rank_up
    rw [can_rank_up_none hn]
    simp
  · intro node hn
    constructor
    · intro hfail
      have hb : can_rank_up st tree skill_id prog = false := by
        rw [Bool.eq_false_iff]
        intro ht
        exact (can_rank_up_some hn).mp ht hfail
      simp [rank_up, hb]
    · intro hok
      have hb : can_rank_up st tree skill_id prog = true := (can_rank_up_some hn).mpr hok
      refine ⟨by simp [rank_up, hb], by simp [rank_up, hb, SkillTreeState.rank],
        fun x hx => by simp [rank_up, hb, hx], by simp [rank_up, hb],
        by simp [rank_up, hb], by simp [rank_up, hb]⟩

/-- Witness for C5: a one-node tree where the rank-up succeeds. -/
theorem c5_rank_up_spec_witness :
    (rank_up ⟨fun _ => 0, true⟩ ⟨[("haggle", ⟨"haggle", 10, 1, [], Modifiers.zero⟩)]⟩
      "haggle" ⟨1, 0, 3⟩).1 = true ∧
    (rank_up ⟨fun _ => 0, true⟩ ⟨[("haggle", ⟨"haggle", 10, 1, [], Modifiers.zero⟩)]⟩
      "haggle" ⟨1, 0, 3⟩).2.1.ranks "haggle" = 1 ∧
    (rank_up ⟨fun _ => 0, true⟩ ⟨[("haggle", ⟨"haggle", 10, 1, [], Modifiers.zero⟩)]⟩
      "haggle" ⟨1, 0, 3⟩).2.2.skill_points = 2 := by
  have h := ((c5_rank_up_spec ⟨[("haggle", ⟨"haggle", 10, 1, [], Modifiers.zero⟩)]⟩ "haggle"
      ⟨fun _ => 0, true⟩ ⟨1, 0, 3⟩).2 ⟨"haggle", 10, 1, [], Modifiers.zero⟩ rfl).2 (by
    rintro (h | h | h | ⟨pr, hm, _⟩)
    · revert h; decide
    · revert h; decide
    · revert h; decide
    · simp at hm)
  exact ⟨h.1, by rw [h.2.1]; decide, by rw [h.2.2.2.1]; decide⟩

/-! ## Pricing helper lemmas -/

theorem clamp_markup_pct_idem (pct : ℚ) :
    clamp_markup_pct (clamp_markup_pct pct) = clamp_markup_pct pct := by
  unfold clamp_markup_pct
  split_ifs <;> first | rfl | linarith

theorem retail_base_price_absolute {prices : Prices} {pricing : PricingSettings}
    {product : String} (hkey : product_key product = some product)
    (hmode : pricing.mode = "absolute") :
    retail_base_price prices pricing product = some (prices.get product) := by
  unfold retail_base_price
  rw [hkey]
  simp [hmode]

theorem retail_base_price_markup {prices : Prices} {pricing : PricingSettings}
    {product : String} {u : Int} (hkey : product_key product = some product)
    (hu : wholesale_unit_cost product = some u) (hmode : ¬ pricing.mode = "absolute") :
    retail_base_price prices pricing product =
      some (compute_retail_price u (pricing.get_markup_pct product)) := by
  unfold retail_base_price
  rw [hkey]
  simp [hmode, hu]

theorem compute_retail_price_formula (u : Int) (pricing : PricingSettings) (k : String) :
    compute_retail_price u (pricing.get_markup_pct k) =
      max 1 (pyRound (((max 1 u : Int) : ℚ) * (1 + clamp_markup_pct (pricing.markup_pct k)))) := by
  unfold compute_retail_price PricingSettings.get_markup_pct
  rw [clamp_markup_pct_idem]

theorem one_le_compute_retail_price (u : Int) (pct : ℚ) :
    1 ≤ compute_retail_price u pct :=
  le_max_left 1 _

theorem effective_of_base {prices : Prices} {pricing : PricingSettings} {product : String}
    {mods : Modifiers} {b : Int} (hb : retail_base_price prices pricing product = some b) :
    effective_sale_price prices product mods pricing =
      some (apply_sell_price_pct b mods.sell_price_pct) := by
  unfold effective_sale_price base_price_for_product
  rw [hb]

theorem apply_sell_price_pct_zero (b : Int) : apply_sell_price_pct b 0 = max 1 b := by
  unfold apply_sell_price_pct
  norm_num [pyRound_intCast]

theorem max_one_le_apply_sell_price_pct (b : Int) {pct : ℚ} (hpct : 0 ≤ pct) :
    max 1 b ≤ apply_sell_price_pct b pct := by
  unfold apply_sell_price_pct
  rcases le_or_lt b 0 with hb | hb
  · rw [max_eq_left (hb.trans zero_le_one)]
    exact le_max_left 1 _
  · have hcast : (0:ℚ) < (b:ℚ) := by exact_mod_cast hb
    have hle : (b:ℚ) ≤ (b:ℚ) * (1 + pct) := by nlinarith
    have h2 := pyRound_mono hle
    rw [pyRound_intCast] at h2
    exact max_le_max (le_refl 1) h2

theorem or_fallback_of_one_le {v fallback : Int} (h : 1 ≤ v) :
    or_fallback (some v) fallback = v := by
  simp only [or_fallback]
  rw [if_neg (by omega)]

theorem wholesale_unit_cost_isSome {product : String} (hp : product ∈ forecast_product_keys) :
    ∃ u, wholesale_unit_cost product = some u := by
  rw [← Option.isSome_iff_exists]
  fin_cases hp <;> decide

/-! ## C6 — effective sale price vs retail base price -/

/-- C6 (amended): for every product key, the retail base price exists and
equals the stored absolute figure in absolute mode, resp.
`max(1, round(max(1, wholesale) * (1 + clamped markup%)))` in markup mode
(hence is ≥ 1 there); with all-zero modifiers the effective sale price is
that base floored at 1 (so equal to it whenever it is ≥ 1); with a
strictly positive `sell_price_pct` the effective sale price is at least
the floored base — not always strictly greater, see the
counterexample. -/
theorem c6_effective_sale_price_spec (product : String) (prices : Prices)
    (pricing : PricingSettings) (mods : Modifiers)
    (hp : product ∈ forecast_product_keys) :
    ∃ b, retail_base_price prices pricing product = some b ∧
      (pricing.mode = "absolute" → b = prices.get product) ∧
      (¬ pricing.mode = "absolute" → 1 ≤ b ∧
        ∃ u, wholesale_unit_cost product = some u ∧
          b = max 1 (pyRound (((max 1 u : Int) : ℚ) *
                (1 + clamp_markup_pct (pricing.markup_pct product))))) ∧
      (mods.sell_price_pct = 0 →
        effective_sale_price prices product mods pricing = some (max 1 b)) ∧
      (0 < mods.sell_price_pct →
        ∃ e, effective_sale_price prices product mods pricing = some e ∧ max 1 b ≤ e) := by
  have hkey : product_key product = some product := by
    fin_cases hp <;> decide
  obtain ⟨u, hu⟩ := wholesale_unit_cost_isSome hp
  by_cases hmode : pricing.mode = "absolute"
  · refine ⟨prices.get product, retail_base_price_absolute hkey hmode,
      fun _ => rfl, fun h => absurd hmode h, fun hz => ?_, fun hpos => ?_⟩
    · rw [effective_of_base (retail_base_price_absolute hkey hmode), hz,
        apply_sell_price_pct_zero]
    · exact ⟨_, effective_of_base (retail_base_price_absolute hkey hmode),
        max_one_le_apply_sell_price_pct _ hpos.le⟩
  · refine ⟨compute_retail_price u (pricing.get_markup_pct product),
      retail_base_price_markup hkey hu hmode,
      fun h => absurd h hmode,
      fun _ => ⟨one_le_compute_retail_price u _, u, hu,
        compute_retail_price_formula u pricing product⟩,
      fun hz => ?_, fun hpos => ?_⟩
    · rw [effective_of_base (retail_base_price_markup hkey hu hmode), hz,
        apply_sell_price_pct_zero]
    · exact ⟨_, effective_of_base (retail_base_price_markup hkey hu hmode),
        max_one_le_apply_sell_price_pct _ hpos.le⟩

/-- Witness for C6 at the default absolute prices with zero modifiers. -/
theorem c6_effective_sale_price_spec_witness :
    ∃ b, retail_base_price DEFAULT_PRICES ⟨"absolute", fun _ => 0⟩ "booster" = some b ∧
      effective_sale_price DEFAULT_PRICES "booster" Modifiers.zero
        ⟨"absolute", fun _ => 0⟩ = some (max 1 b) := by
  obtain ⟨b, hb, _, _, hz, _⟩ :=
    c6_effective_sale_price_spec "booster" DEFAULT_PRICES ⟨"absolute", fun _ => 0⟩
      Modifiers.zero (by simp [forecast_product_keys])
  exact ⟨b, hb, hz rfl⟩

/-- Counterexample for C6 as stated: with the strictly positive modifier
`sell_price_pct = 1/100` the effective sale price of a booster equals the
retail base price `4` instead of being strictly greater. -/
theorem c6_counterexample :
    (0:ℚ) < 1/100 ∧
    retail_base_price DEFAULT_PRICES ⟨"absolute", fun _ => 0⟩ "booster" = some 4 ∧
    effective_sale_price DEFAULT_PRICES "booster" ⟨1/100, 0, 0, 0⟩
      ⟨"absolute", fun _ => 0⟩ = some 4 := by
  have hb : retail_base_price DEFAULT_PRICES ⟨"absolute", fun _ => 0⟩ "booster" = some 4 := by
    decide
  refine ⟨by norm_num, hb, ?_⟩
  rw [@effective_of_base _ _ _ ⟨1/100, 0, 0, 0⟩ _ hb]
  have hval : ((4:Int):ℚ) * (1 + 1/100) = 101/25 := by norm_num
  have hf : ⌊((4:Int):ℚ) * (1 + 1/100)⌋ = 4 := by
    rw [hval]
    norm_num [Int.floor_eq_iff]
  unfold apply_sell_price_pct pyRound
  rw [hf, hval]
  rw [if_pos (by norm_num)]
  decide

/-! ## C3 — demand weighting price vs effective sale price -/

/-- C3 (amended): the price `choose_purchase` uses to weight a product is
the mode-appropriate retail base price (the demand `Prices` built from
`retail_base_price` in markup mode, the stored `Prices` in absolute
mode) — not the skill-modified effective sale price.  The two agree
exactly when `sell_price_pct = 0` (and the base is ≥ 1, which always
holds in markup mode). -/
theorem c3_weight_price_spec (product : String) (prices : Prices)
    (pricing : PricingSettings) (mods : Modifiers)
    (hp : product ∈ forecast_product_keys)
    (hmode : pricing.mode = "absolute" ∨ pricing.mode = "markup") :
    retail_base_price prices pricing product = some (weight_price prices pricing product) ∧
    (mods.sell_price_pct = 0 → 1 ≤ weight_price prices pricing product →
      effective_sale_price prices product mods pricing =
        some (weight_price prices pricing product)) := by
  have hkey : product_key product = some product := by
    fin_cases hp <;> decide
  obtain ⟨u, hu⟩ := wholesale_unit_cost_isSome hp
  have hmain : retail_base_price prices pricing product =
      some (weight_price prices pricing product) := by
    rcases hmode with hmode | hmode
    · have hnm : ¬ pricing.mode = "markup" := by rw [hmode]; decide
      rw [retail_base_price_absolute hkey hmode]
      unfold weight_price
      rw [if_neg hnm]
    · have hna : ¬ pricing.mode = "absolute" := by rw [hmode]; decide
      have hret := @retail_base_price_markup prices _ _ _ hkey hu hna
      have h1 : 1 ≤ compute_retail_price u (pricing.get_markup_pct product) :=
        one_le_compute_retail_price u _
      have hw : weight_price prices pricing product =
          or_fallback (retail_base_price prices pricing product) (prices.get product) := by
        unfold weight_price
        rw [if_pos hmode]
        fin_cases hp <;> simp [demand_prices, Prices.get]
      rw [hret] at hw ⊢
      rw [hw, or_fallback_of_one_le h1]
  refine ⟨hmain, fun hz hone => ?_⟩
  rw [effective_of_base hmain, hz, apply_sell_price_pct_zero, max_eq_right hone]

/-- Witness for C3 in markup mode with zero modifiers. -/
theorem c3_weight_price_spec_witness :
    retail_base_price DEFAULT_PRICES ⟨"markup", fun _ => 0⟩ "deck" =
      some (weight_price DEFAULT_PRICES ⟨"markup", fun _ => 0⟩ "deck") ∧
    effective_sale_price DEFAULT_PRICES "deck" Modifiers.zero ⟨"markup", fun _ => 0⟩ =
      some (weight_price DEFAULT_PRICES ⟨"markup", fun _ => 0⟩ "deck") := by
  obtain ⟨h1, h2⟩ :=
    c3_weight_price_spec "deck" DEFAULT_PRICES ⟨"markup", fun _ => 0⟩ Modifiers.zero
      (by simp [forecast_product_keys]) (Or.inr rfl)
  refine ⟨h1, h2 rfl ?_⟩
  have hret : retail_base_price DEFAULT_PRICES ⟨"markup", fun _ => 0⟩ "deck" = some 11 := by
    have hkey : product_key "deck" = some "deck" := by decide
    have hu : wholesale_unit_cost "deck" = some 11 := by decide
    rw [retail_base_price_markup hkey hu (by decide)]
    rw [compute_retail_price_formula]
    have hc : clamp_markup_pct ((0:ℚ)) = 0 := by unfold clamp_markup_pct; norm_num
    have hcast : ((max 1 (11:Int) : Int) : ℚ) * (1 + clamp_markup_pct 0) = ((11:Int):ℚ) := by
      rw [hc]; norm_num
    rw [hcast, pyRound_intCast]
    decide
  have hw : weight_price DEFAULT_PRICES ⟨"markup", fun _ => 0⟩ "deck" = 11 :=
    Option.some.inj (h1.symm.trans hret)
  omega

/-- Counterexample for C3 as stated: in absolute mode with booster price
`10` and `sell_price_pct = 1/10`, the purchase weighting uses price `10`
while the transaction charges the effective sale price `11`. -/
theorem c3_counterexample :
    weight_price ⟨10, 18, 1, 2, 6, 12, 28⟩ ⟨"absolute", fun _ => 0⟩ "booster" = 10 ∧
    effective_sale_price ⟨10, 18, 1, 2, 6, 12, 28⟩ "booster" ⟨1/10, 0, 0, 0⟩
      ⟨"absolute", fun _ => 0⟩ = some 11 := by
  refine ⟨by decide, ?_⟩
  have hb : retail_base_price ⟨10, 18, 1, 2, 6, 12, 28⟩ ⟨"absolute", fun _ => 0⟩ "booster" =
      some 10 := by decide
  rw [@effective_of_base _ _ _ ⟨1/10, 0, 0, 0⟩ _ hb]
  have hval : ((10:Int):ℚ) * (1 + 1/10) = ((11:Int):ℚ) := by norm_num
  unfold apply_sell_price_pct
  rw [hval, pyRound_intCast]
  decide

/-! ## C10 — atomic fixture placement -/

theorem place_objects_cases (l : ShopLayout) (kind : String) (tile : Int × Int) :
    (layout_in_bounds l.grid tile = true ∧ (l.object_at tile).isSome = false ∧
      (ShopLayout.place l kind tile).objects = l.objects ++ [⟨kind, tile⟩]) ∨
    ((ShopLayout.place l kind tile) = l ∧
      (layout_in_bounds l.grid tile = false ∨ (l.object_at tile).isSome = true)) := by
  unfold ShopLayout.place
  by_cases h1 : layout_in_bounds l.grid tile
  · by_cases h2 : (l.object_at tile).isSome
    · right
      rw [if_neg (by simp [h1]), if_pos h2]
      exact ⟨rfl, Or.inr h2⟩
    · left
      rw [if_neg (by simp [h1]), if_neg h2]
      refine ⟨h1, by simp at h2; simp [h2], ?_⟩
      split_ifs <;> rfl
  · right
    rw [if_pos (by simp at h1 ⊢; simp [h1])]
    exact ⟨rfl, Or.inl (by simp at h1; exact h1)⟩

/-- C10: `try_place_object` is atomic with respect to the owned-fixture
counts: when it returns `false` (out-of-bounds tile, occupied tile, or no
owned fixture of the kind) the counts are exactly as before the call (a
consumed fixture is refunded), and it returns `true` exactly when a new
object was appended to the layout. -/
theorem c10_try_place_object_atomic (fix : FixtureInventory) (layout : ShopLayout)
    (kind : String) (tile : Int × Int) :
    ((try_place_object fix layout kind tile).1 = false →
      (try_place_object fix layout kind tile).2.1 = fix) ∧
    ((try_place_object fix layout kind tile).1 = true ↔
      (try_place_object fix layout kind tile).2.2.objects.length =
        layout.objects.length + 1) ∧
    ((layout_in_bounds layout.grid tile = false ∨ (layout.object_at tile).isSome = true ∨
      (kind = "shelf" ∧ fix.shelves ≤ 0) ∨ (kind = "counter" ∧ fix.counters ≤ 0) ∨
      (kind = "poster" ∧ fix.posters ≤ 0)) →
      (try_place_object fix layout kind tile).1 = false) := by
  obtain ⟨a, b, c⟩ := fix
  rcases place_objects_cases layout kind tile with ⟨hin, hocc, hobj⟩ | ⟨heq, hfail⟩
  · -- the raw placement succeeds
    have hlen : (ShopLayout.place layout kind tile).objects.length =
        layout.objects.length + 1 := by rw [hobj]; simp
    by_cases hs : kind = "shelf"
    · subst hs
      by_cases hle : a ≤ 0
      · refine ⟨fun _ => ?_, ?_, fun _ => ?_⟩ <;>
          simp [try_place_object, consume_for_place, hle, hlen]
      · refine ⟨fun hf => absurd hf ?_, ?_, fun hcond => ?_⟩
        · simp [try_place_object, consume_for_place, hle, hlen]
        · simp [try_place_object, consume_for_place, hle, hlen]
        · rcases hcond with h | h | ⟨_, h⟩ | ⟨hk, _⟩ | ⟨hk, _⟩ <;> simp_all
    · by_cases hc : kind = "counter"
      · subst hc
        by_cases hle : b ≤ 0
        · refine ⟨fun _ => ?_, ?_, fun _ => ?_⟩ <;>
            simp [try_place_object, consume_for_place, hle, hlen]
        · refine ⟨fun hf => absurd hf ?_, ?_, fun hcond => ?_⟩
          · simp [try_place_object, consume_for_place, hle, hlen]
          · simp [try_place_object, consume_for_place, hle, hlen]
          · rcases hcond with h | h | ⟨hk, _⟩ | ⟨_, h⟩ | ⟨hk, _⟩ <;> simp_all
      · by_cases hp : kind = "poster"
        · subst hp
          by_cases hle : c ≤ 0
          · refine ⟨fun _ => ?_, ?_, fun _ => ?_⟩ <;>
              simp [try_place_object, consume_for_place, hle, hlen]
          · refine ⟨fun hf => absurd hf ?_, ?_, fun hcond => ?_⟩
            · simp [try_place_object, consume_for_place, hle, hlen]
            · simp [try_place_object, consume_for_place, hle, hlen]
            · rcases hcond with h | h | ⟨hk, _⟩ | ⟨hk, _⟩ | ⟨_, h⟩ <;> simp_all
        · refine ⟨fun hf => absurd hf ?_, ?_, fun hcond => ?_⟩
          · simp [try_place_object, consume_for_place, hs, hc, hp, hlen]
          · simp [try_place_object, consume_for_place, hs, hc, hp, hlen]
          · rcases hcond with h | h | ⟨hk, _⟩ | ⟨hk, _⟩ | ⟨hk, _⟩ <;> simp_all
  · -- the raw placement is a no-op
    have hlen : (ShopLayout.place layout kind tile).objects.length =
        layout.objects.length := by rw [heq]
    have hne : ¬ (ShopLayout.place layout kind tile).objects.length =
        layout.objects.length + 1 := by omega
    by_cases hs : kind = "shelf"
    · subst hs
      by_cases hle : a ≤ 0
      · refine ⟨fun _ => ?_, ?_, fun _ => ?_⟩ <;>
          simp [try_place_object, consume_for_place, hle, hlen]
      · refine ⟨fun _ => ?_, ?_, fun _ => ?_⟩ <;>
          simp [try_place_object, consume_for_place, hle, hlen] <;> omega
    · by_cases hc : kind = "counter"
      · subst hc
        by_cases hle : b ≤ 0
        · refine ⟨fun _ => ?_, ?_, fun _ => ?_⟩ <;>
            simp [try_place_object, consume_for_place, hle, hlen]
        · refine ⟨fun _ => ?_, ?_, fun _ => ?_⟩ <;>
            simp [try_place_object, consume_for_place, hle, hlen] <;> omega
      · by_cases hp : kind = "poster"
        · subst hp
          by_cases hle : c ≤ 0
          · refine ⟨fun _ => ?_, ?_, fun _ => ?_⟩ <;>
              simp [try_place_object, consume_for_place, hle, hlen]
          · refine ⟨fun _ => ?_, ?_, fun _ => ?_⟩ <;>
              simp [try_place_object, consume_for_place, hle, hlen] <;> omega
        · refine ⟨fun _ => ?_, ?_, fun _ => ?_⟩ <;>
            simp [try_place_object, consume_for_place, hs, hc, hp, hlen] <;> omega

/-- Witness for C10: placing a shelf with one owned shelf on an empty
in-bounds tile returns `true` and appends one object. -/
theorem c10_try_place_object_atomic_witness :
    (try_place_object ⟨1, 0, 0⟩ ⟨(20, 12), [], []⟩ "shelf" (3, 4)).1 = true := by
  have h := (c10_try_place_object_atomic ⟨1, 0, 0⟩ ⟨(20, 12), [], []⟩ "shelf" (3, 4)).2.1
  exact h.mpr (by decide)

/-! ## C8 — pending-order delivery -/

theorem process_pending_orders_foldl (now : ℚ) (orders : List InventoryOrder) :
    ∀ (inv : Inventory) (acc : List InventoryOrder),
      orders.foldl
          (fun acc order =>
            if order.deliver_at ≤ now then (acc.1.apply_order order, acc.2)
            else (acc.1, acc.2 ++ [order]))
          (inv, acc) =
        ((orders.filter (fun ord => decide (ord.deliver_at ≤ now))).foldl
            (fun i ord => i.apply_order ord) inv,
          acc ++ orders.filter (fun ord => ! decide (ord.deliver_at ≤ now))) := by
  induction orders with
  | nil => intro inv acc; simp
  | cons o rest ih =>
    intro inv acc
    by_cases h : o.deliver_at ≤ now
    · simp [h, ih]
    · simp [h, ih]

/-- C8: `process_pending_orders` delivers exactly the orders whose
`deliver_at` has elapsed (each applied to the inventory once, in order)
and keeps exactly the others pending; in particular an order with
`deliver_at = T` is untouched while `now < T`, and on the first
processing with `now ≥ T` it is applied and removed, so it is never
applied twice.  The spec's concrete scenario
(`boosters=5, cost=20, deliver_at=10`) is instantiated in the last
conjunct. -/
theorem c8_pending_orders_delivery (now : ℚ) (orders : List InventoryOrder)
    (inv : Inventory) (o : InventoryOrder) :
    process_pending_orders now orders inv =
      ((orders.filter (fun ord => decide (ord.deliver_at ≤ now))).foldl
          (fun i ord => i.apply_order ord) inv,
        orders.filter (fun ord => ! decide (ord.deliver_at ≤ now))) ∧
    (now < o.deliver_at →
      (process_pending_orders now orders inv).2.count o = orders.count o ∧
      o ∉ orders.filter (fun ord => decide (ord.deliver_at ≤ now))) ∧
    (o.deliver_at ≤ now →
      o ∉ (process_pending_orders now orders inv).2 ∧
      (orders.filter (fun ord => decide (ord.deliver_at ≤ now))).count o = orders.count o) ∧
    (process_pending_orders 5 [⟨5, 0, [], 20, 0, 10⟩] inv = (inv, [⟨5, 0, [], 20, 0, 10⟩]) ∧
      (process_pending_orders 10 [⟨5, 0, [], 20, 0, 10⟩] inv).1.booster_packs =
        inv.booster_packs + 5 ∧
      (process_pending_orders 10 [⟨5, 0, [], 20, 0, 10⟩] inv).2 = []) := by
  have hchar := process_pending_orders_foldl now orders inv []
  have hmain : process_pending_orders now orders inv =
      ((orders.filter (fun ord => decide (ord.deliver_at ≤ now))).foldl
          (fun i ord => i.apply_order ord) inv,
        orders.filter (fun ord => ! decide (ord.deliver_at ≤ now))) := by
    unfold process_pending_orders
    rw [hchar]
    simp
  refine ⟨hmain, fun hlt => ⟨?_, ?_⟩, fun hle => ⟨?_, ?_⟩, ?_, ?_, ?_⟩
  · rw [hmain]
    exact List.count_filter (by simp [not_le.mpr hlt])
  · simp [not_le.mpr hlt]
  · rw [hmain]
    simp [hle]
  · exact List.count_filter (by simp [hle])
  · have hc : ¬ ((10:ℚ) ≤ 5) := by decide
    simp [process_pending_orders, hc]
  · have hc : ((10:ℚ) ≤ 10) := by decide
    simp [process_pending_orders, hc, Inventory.apply_order]
  · have hc : ((10:ℚ) ≤ 10) := by decide
    simp [process_pending_orders, hc]

/-- Witness for C8: the scenario order is still pending at `now = 5` and
delivered exactly once at `now = 10`. -/
theorem c8_pending_orders_delivery_witness :
    (process_pending_orders 5 [⟨5, 0, [], 20, 0, 10⟩]
        ⟨0, 0, fun _ => 0⟩).2.count ⟨5, 0, [], 20, 0, 10⟩ =
      [(⟨5, 0, [], 20, 0, 10⟩ : InventoryOrder)].count ⟨5, 0, [], 20, 0, 10⟩ ∧
    (process_pending_orders 10 [⟨5, 0, [], 20, 0, 10⟩] ⟨0, 0, fun _ => 0⟩).1.booster_packs =
      (⟨0, 0, fun _ => 0⟩ : Inventory).booster_packs + 5 := by
  obtain ⟨_, h2, _, _, h5, _⟩ :=
    c8_pending_orders_delivery 5 [⟨5, 0, [], 20, 0, 10⟩] ⟨0, 0, fun _ => 0⟩
      ⟨5, 0, [], 20, 0, 10⟩
  obtain ⟨_, _, _, _, h5b, _⟩ :=
    c8_pending_orders_delivery 10 [⟨5, 0, [], 20, 0, 10⟩] ⟨0, 0, fun _ => 0⟩
      ⟨5, 0, [], 20, 0, 10⟩
  exact ⟨(h2 (by decide)).1, h5b⟩

/-! ## C2 — purchase decrements one unit -/

theorem ShelfMap.set_same (m : ShelfMap) (key : String) (v : ShelfStock) :
    m.set key v key = some v := by
  simp [ShelfMap.set]

theorem ShelfMap.set_other (m : ShelfMap) (key : String) (v : ShelfStock) (k : String)
    (hk : k ≠ key) : m.set key v k = m k := by
  simp [ShelfMap.set, hk]

/-- C2 (amended): executing a sale against a shelf with `qty ≥ 1` (and a
consistent listed-cards list) decrements `qty` by exactly one unit — for
a listed-cards shelf by removing the picked card — credits the effective
sale price, and, if the shelf thereby becomes empty, clamps `qty` to `0`
and clears `cards` while the `product` field keeps its last value (it is
deliberately not reset to the `"empty"` sentinel; see the
counterexample). -/
theorem c2_process_purchase_sale (shelf_key product : String) (prices : Prices)
    (mods : Modifiers) (pricing : PricingSettings) (pick : Nat) (shelves : ShelfMap)
    (money : Int) (stock : ShelfStock) (price : Int)
    (hs : shelves shelf_key = some stock) (h1 : 1 ≤ stock.qty)
    (hinv : stock.cards ≠ [] → stock.qty = (stock.cards.length : Int))
    (hp : effective_sale_price prices product mods pricing = some price) :
    ∃ stock2,
      (process_purchase (shelf_key, product) prices mods pricing pick shelves money).shelves
          shelf_key = some stock2 ∧
      stock2.qty = stock.qty - 1 ∧
      stock2.product = stock.product ∧
      stock2.max_qty = stock.max_qty ∧
      (stock.qty = 1 → stock2.cards = []) ∧
      ((starts_with_single product && !stock.cards.isEmpty) = true →
        ∃ c ∈ stock.cards, stock2.cards = stock.cards.erase c) ∧
      (process_purchase (shelf_key, product) prices mods pricing pick shelves money).money =
        money + price ∧
      (∀ k, k ≠ shelf_key →
        (process_purchase (shelf_key, product) prices mods pricing pick shelves money).shelves
          k = shelves k) := by
  have hq : ¬ stock.qty ≤ 0 := by omega
  simp only [process_purchase, hs, if_neg hq, hp]
  split_ifs with hA hB hC
  · -- listed branch, shelf emptied
    have hne : stock.cards ≠ [] := by
      have h2 := (Bool.and_eq_true _ _ ▸ hA).2
      simpa using h2
    have hlen : 0 < stock.cards.length := List.length_pos.mpr hne
    have hidx : pick % stock.cards.length < stock.cards.length := Nat.mod_lt _ hlen
    have hmem : stock.cards.getD (pick % stock.cards.length) "" ∈ stock.cards := by
      rw [List.getD_eq_getElem?_getD, List.getElem?_eq_getElem hidx]
      exact List.getElem_mem hidx
    have herase : (stock.cards.erase (stock.cards.getD (pick % stock.cards.length) "")).length =
        stock.cards.length - 1 := List.length_erase_of_mem hmem
    have hqty : stock.qty = (stock.cards.length : Int) := hinv hne
    have hB' : ((stock.cards.erase (stock.cards.getD (pick % stock.cards.length) "")).length
        : Int) ≤ 0 := hB
    have hzero : (stock.cards.erase (stock.cards.getD (pick % stock.cards.length) "")).length
        = 0 := by omega
    refine ⟨_, ShelfMap.set_same _ _ _, ?_, rfl, rfl, fun _ => rfl, fun _ => ?_, trivial,
      fun k hk => ShelfMap.set_other _ _ _ _ hk⟩
    · show (0 : Int) = stock.qty - 1
      omega
    · exact ⟨_, hmem, ((List.length_eq_zero).mp hzero).symm⟩
  · -- listed branch, stock remains
    have hne : stock.cards ≠ [] := by
      have h2 := (Bool.and_eq_true _ _ ▸ hA).2
      simpa using h2
    have hlen : 0 < stock.cards.length := List.length_pos.mpr hne
    have hidx : pick % stock.cards.length < stock.cards.length := Nat.mod_lt _ hlen
    have hmem : stock.cards.getD (pick % stock.cards.length) "" ∈ stock.cards := by
      rw [List.getD_eq_getElem?_getD, List.getElem?_eq_getElem hidx]
      exact List.getElem_mem hidx
    have herase : (stock.cards.erase (stock.cards.getD (pick % stock.cards.length) "")).length =
        stock.cards.length - 1 := List.length_erase_of_mem hmem
    have hqty : stock.qty = (stock.cards.length : Int) := hinv hne
    have hB' : ¬ ((stock.cards.erase (stock.cards.getD (pick % stock.cards.length) "")).length
        : Int) ≤ 0 := hB
    refine ⟨_, ShelfMap.set_same _ _ _, ?_, rfl, rfl, fun h1e => ?_, fun _ => ?_, trivial,
      fun k hk => ShelfMap.set_other _ _ _ _ hk⟩
    · show ((stock.cards.erase (stock.cards.getD (pick % stock.cards.length) "")).length
        : Int) = stock.qty - 1
      omega
    · exfalso
      omega
    · exact ⟨_, hmem, rfl⟩
  · -- bulk branch, shelf emptied
    have hC' : stock.qty - 1 ≤ 0 := hC
    refine ⟨_, ShelfMap.set_same _ _ _, ?_, rfl, rfl, fun _ => rfl, fun hc => absurd hc hA,
      trivial, fun k hk => ShelfMap.set_other _ _ _ _ hk⟩
    show (0 : Int) = stock.qty - 1
    omega
  · -- bulk branch, stock remains
    have hC' : ¬ stock.qty - 1 ≤ 0 := hC
    refine ⟨_, ShelfMap.set_same _ _ _, rfl, rfl, rfl, fun h1e => ?_, fun hc => absurd hc hA,
      trivial, fun k hk => ShelfMap.set_other _ _ _ _ hk⟩
    exfalso
    omega

/-- Witness for C2: selling one of two boosters. -/
theorem c2_process_purchase_sale_witness :
    ∃ stock2,
      (process_purchase ("2,2", "booster") DEFAULT_PRICES Modifiers.zero
          ⟨"absolute", fun _ => 0⟩ 0
          (fun k => if k = "2,2" then some ⟨"booster", 2, 10, []⟩ else none) 0).shelves
        "2,2" = some stock2 ∧
      stock2.qty = 1 := by
  have hprice : effective_sale_price DEFAULT_PRICES "booster" Modifiers.zero
      ⟨"absolute", fun _ => 0⟩ = some 4 := by
    rw [effective_of_base (by decide : retail_base_price DEFAULT_PRICES
      ⟨"absolute", fun _ => 0⟩ "booster" = some 4)]
    rw [show Modifiers.zero.sell_price_pct = 0 from rfl, apply_sell_price_pct_zero]
    decide
  obtain ⟨s2, hmem, hq, _⟩ :=
    c2_process_purchase_sale "2,2" "booster" DEFAULT_PRICES Modifiers.zero
      ⟨"absolute", fun _ => 0⟩ 0
      (fun k => if k = "2,2" then some ⟨"booster", 2, 10, []⟩ else none) 0
      ⟨"booster", 2, 10, []⟩ 4 (by simp) (by decide) (by simp) hprice
  exact ⟨s2, hmem, by rw [hq]; decide⟩

/-- Counterexample for C2 as stated: selling the last booster of a shelf
leaves `product = "booster"`; the code deliberately does not reset it to
the `"empty"` sentinel (source comment: "Keep the last product type so
staff can restock it"). -/
theorem c2_counterexample :
    ∃ stock2,
      (process_purchase ("2,2", "booster") DEFAULT_PRICES Modifiers.zero
          ⟨"absolute", fun _ => 0⟩ 0
          (fun k => if k = "2,2" then some ⟨"booster", 1, 10, []⟩ else none) 0).shelves
        "2,2" = some stock2 ∧
      stock2.qty = 0 ∧ stock2.product ≠ "empty" := by
  have hprice : effective_sale_price DEFAULT_PRICES "booster" Modifiers.zero
      ⟨"absolute", fun _ => 0⟩ = some 4 := by
    rw [effective_of_base (by decide : retail_base_price DEFAULT_PRICES
      ⟨"absolute", fun _ => 0⟩ "booster" = some 4)]
    rw [show Modifiers.zero.sell_price_pct = 0 from rfl, apply_sell_price_pct_zero]
    decide
  refine ⟨⟨"booster", 0, 10, []⟩, ?_, rfl, by decide⟩
  simp only [process_purchase, hprice]
  simp [ShelfMap.set, starts_with_single]

/-! ## C1 — shelf-invariant preservation -/

theorem starts_with_single_ne_empty {s : String} (h : starts_with_single s = true) :
    ¬ s = "empty" := by
  intro he
  subst he
  exact absurd h (by decide)

theorem apply_restock_preserves (plan : RestockPlan) (shelves : ShelfMap) (inv : Inventory)
    (coll : CardCollection) (deck : Deck) (amount : Int) (hm : ShelfMapOk shelves)
    (hplan : ∀ cid, plan.card_id = some cid → starts_with_single plan.product = true) :
    ShelfMapOk (apply_restock plan shelves inv coll deck amount).shelves := by
  cases heq : shelves plan.shelf_key with
  | none =>
    intro k s hks
    apply hm
    simpa only [apply_restock, heq] using hks
  | some stock =>
    obtain ⟨⟨hq0, hqm, hqc⟩, hsp⟩ := hm plan.shelf_key stock heq
    intro k s hks
    simp only [apply_restock, heq] at hks
    by_cases h1 : stock.max_qty ≤ stock.qty
    · rw [if_pos h1] at hks
      exact hm k s hks
    rw [if_neg h1] at hks
    cases hcid : plan.card_id with
    | some cid =>
      simp only [hcid] at hks
      split_ifs at hks with h2 h3 h4
      · exact hm k s hks
      · exact hm k s hks
      · exact hm k s hks
      · by_cases hk : k = plan.shelf_key
        · subst hk
          simp only [ShelfMap.set_same] at hks
          injection hks with hv
          subst hv
          have hlen : stock.qty = (stock.cards.length : Int) := hqc h3
          refine ⟨⟨by dsimp only; positivity, ?_, fun _ => rfl⟩, fun _ => hplan cid hcid⟩
          simp only [List.length_append, List.length_cons, List.length_nil]
          push_cast
          omega
        · simp only [ShelfMap.set_other _ _ _ _ hk] at hks
          exact hm k s hks
    | none =>
      simp only [hcid] at hks
      split_ifs at hks with h2 h3 h4 h5 h6 h7
      all_goals try exact hm k s hks
      all_goals
        (by_cases hk : k = plan.shelf_key
         · subst hk
           simp only [ShelfMap.set_same] at hks
           injection hks with hv
           subst hv
           refine ⟨⟨by dsimp only; omega, by dsimp only; omega, fun hc => absurd rfl hc⟩, fun hc => absurd rfl hc⟩
         · simp only [ShelfMap.set_other _ _ _ _ hk] at hks
           exact hm k s hks)

theorem deliver_from_carry_preserves (staff : Staff) (plan : RestockPlan)
    (shelves : ShelfMap) (hm : ShelfMapOk shelves) :
    ShelfMapOk (deliver_from_carry staff plan shelves).shelves := by
  cases heq : shelves plan.shelf_key with
  | none =>
    intro k s hks
    apply hm
    simpa only [deliver_from_carry, heq] using hks
  | some stock =>
    obtain ⟨⟨hq0, hqm, hqc⟩, hsp⟩ := hm plan.shelf_key stock heq
    intro k s hks
    simp only [deliver_from_carry, heq] at hks
    by_cases hcards : stock.cards = []
    · -- no listed cards: only the quantity bounds matter
      split_ifs at hks
      all_goals try exact hm k s hks
      all_goals
        (by_cases hk : k = plan.shelf_key
         · subst hk
           simp only [ShelfMap.set_same] at hks
           injection hks with hv
           subst hv
           refine ⟨⟨by dsimp only; omega, by dsimp only; omega, fun hc => ?_⟩, fun hc => ?_⟩ <;>
             simp only [hcards] at hc <;> exact absurd rfl hc
         · simp only [ShelfMap.set_other _ _ _ _ hk] at hks
           exact hm k s hks)
    · -- a listed-cards shelf carries a single_<rarity> product, so only
      -- the singles branch (which clears the cards) can fire
      have hsp' : starts_with_single stock.product = true := hsp hcards
      have hne : ¬ stock.product = "empty" := starts_with_single_ne_empty hsp'
      have hdp : deliver_product staff plan stock = stock.product := by
        unfold deliver_product
        simp [hne]
      have hb : ¬ stock.product = "booster" := by
        intro h
        rw [h] at hsp'
        exact absurd hsp' (by decide)
      have hd : ¬ stock.product = "deck" := by
        intro h
        rw [h] at hsp'
        exact absurd hsp' (by decide)
      rw [hdp] at hks
      rw [if_neg hb, if_neg hd, if_pos hsp'] at hks
      split_ifs at hks
      all_goals try exact hm k s hks
      by_cases hk : k = plan.shelf_key
      · subst hk
        simp only [ShelfMap.set_same] at hks
        injection hks with hv
        subst hv
        refine ⟨⟨by dsimp only; omega, by dsimp only; omega, fun hc => absurd rfl hc⟩,
          fun hc => absurd rfl hc⟩
      · simp only [ShelfMap.set_other _ _ _ _ hk] at hks
        exact hm k s hks

theorem process_purchase_preserves (purchase : String × String) (prices : Prices)
    (mods : Modifiers) (pricing : PricingSettings) (pick : Nat) (shelves : ShelfMap)
    (money : Int) (hm : ShelfMapOk shelves)
    (hprod : ∀ s, shelves purchase.1 = some s → s.cards ≠ [] →
      starts_with_single purchase.2 = true) :
    ShelfMapOk (process_purchase purchase prices mods pricing pick shelves money).shelves := by
  obtain ⟨shelf_key, product⟩ := purchase
  cases heq : shelves shelf_key with
  | none =>
    intro k s hks
    apply hm
    simpa only [process_purchase, heq] using hks
  | some stock =>
    obtain ⟨⟨hq0, hqm, hqc⟩, hsp⟩ := hm shelf_key stock heq
    intro k s hks
    by_cases hq : stock.qty ≤ 0
    · apply hm
      simpa only [process_purchase, heq, if_pos hq] using hks
    cases hp : effective_sale_price prices product mods pricing with
    | none =>
      apply hm
      simpa only [process_purchase, heq, if_neg hq, hp] using hks
    | some price =>
      simp only [process_purchase, heq, if_neg hq, hp] at hks
      split_ifs at hks with hA hB hC
      · -- listed sale, shelf emptied
        by_cases hk : k = shelf_key
        · subst hk
          simp only [ShelfMap.set_same] at hks
          injection hks with hv
          subst hv
          exact ⟨⟨le_refl 0, by dsimp only; omega, fun hc => absurd rfl hc⟩, fun hc => absurd rfl hc⟩
        · simp only [ShelfMap.set_other _ _ _ _ hk] at hks
          exact hm k s hks
      · -- listed sale, stock remains
        have hne : stock.cards ≠ [] := by
          have h2 := (Bool.and_eq_true _ _ ▸ hA).2
          simpa using h2
        have hlen : stock.qty = (stock.cards.length : Int) := hqc hne
        have hel : (stock.cards.erase (stock.cards.getD (pick % stock.cards.length) "")).length
            ≤ stock.cards.length := List.length_erase_le _ _
        by_cases hk : k = shelf_key
        · subst hk
          simp only [ShelfMap.set_same] at hks
          injection hks with hv
          subst hv
          refine ⟨⟨by dsimp only; positivity, by dsimp only; omega, fun _ => rfl⟩, fun _ => hsp hne⟩
        · simp only [ShelfMap.set_other _ _ _ _ hk] at hks
          exact hm k s hks
      · -- bulk sale, shelf emptied
        by_cases hk : k = shelf_key
        · subst hk
          simp only [ShelfMap.set_same] at hks
          injection hks with hv
          subst hv
          exact ⟨⟨le_refl 0, by dsimp only; omega, fun hc => absurd rfl hc⟩, fun hc => absurd rfl hc⟩
        · simp only [ShelfMap.set_other _ _ _ _ hk] at hks
          exact hm k s hks
      · -- bulk sale, stock remains
        have hcards : stock.cards = [] := by
          by_contra hc
          have hstart := hprod stock heq hc
          have : (starts_with_single product && !stock.cards.isEmpty) = true := by
            rw [hstart]
            simp [hc]
          exact hA this
        by_cases hk : k = shelf_key
        · subst hk
          simp only [ShelfMap.set_same] at hks
          injection hks with hv
          subst hv
          refine ⟨⟨by dsimp only; omega, by dsimp only; omega, fun hc => ?_⟩, fun hc => ?_⟩ <;>
            simp only [hcards] at hc <;> exact absurd rfl hc
        · simp only [ShelfMap.set_other _ _ _ _ hk] at hks
          exact hm k s hks

/-- C1 (amended): staff restock application, delivery from the staff
carry buffer and customer purchase processing each preserve the §3 shelf
invariant strengthened with product consistency (a shelf with listed
cards carries a `single_<rarity>` product), under the matching side
conditions: a restock plan's `card_id` is only set for a `single_`
product, and a purchase against a listed-cards shelf is for a `single_`
product.  The bare §3 invariant alone is not preserved — see the
counterexample, where a bulk delivery onto a shelf with a stale non-empty
`cards` list breaks `qty == len(cards)`. -/
theorem c1_shelf_invariant_preserved :
    (∀ (plan : RestockPlan) (shelves : ShelfMap) (inv : Inventory) (coll : CardCollection)
      (deck : Deck) (amount : Int), ShelfMapOk shelves →
      (∀ cid, plan.card_id = some cid → starts_with_single plan.product = true) →
      ShelfMapOk (apply_restock plan shelves inv coll deck amount).shelves) ∧
    (∀ (staff : Staff) (plan : RestockPlan) (shelves : ShelfMap), ShelfMapOk shelves →
      ShelfMapOk (deliver_from_carry staff plan shelves).shelves) ∧
    (∀ (purchase : String × String) (prices : Prices) (mods : Modifiers)
      (pricing : PricingSettings) (pick : Nat) (shelves : ShelfMap) (money : Int),
      ShelfMapOk shelves →
      (∀ s, shelves purchase.1 = some s → s.cards ≠ [] →
        starts_with_single purchase.2 = true) →
      ShelfMapOk (process_purchase purchase prices mods pricing pick shelves money).shelves) :=
  ⟨fun plan shelves inv coll deck amount hm hplan =>
      apply_restock_preserves plan shelves inv coll deck amount hm hplan,
   fun staff plan shelves hm => deliver_from_carry_preserves staff plan shelves hm,
   fun purchase prices mods pricing pick shelves money hm hprod =>
      process_purchase_preserves purchase prices mods pricing pick shelves money hm hprod⟩

/-- Witness for C1: delivering boosters from the carry buffer onto a
partially full booster shelf keeps the strengthened invariant. -/
theorem c1_shelf_invariant_preserved_witness :
    ShelfMapOk (deliver_from_carry ⟨3, 0, fun _ => 0⟩ ⟨"2,2", "booster", 9, none⟩
      (fun k => if k = "2,2" then some ⟨"booster", 1, 10, []⟩ else none)).shelves :=
  c1_shelf_invariant_preserved.2.1 ⟨3, 0, fun _ => 0⟩ ⟨"2,2", "booster", 9, none⟩
    (fun k => if k = "2,2" then some ⟨"booster", 1, 10, []⟩ else none)
    (fun k s hks => by
      dsimp only at hks
      split at hks
      · injection hks with hv
        subst hv
        constructor
        · refine ⟨by decide, by decide, fun hc => absurd rfl hc⟩
        · exact fun hc => absurd rfl hc
      · exact absurd hks (by simp))

/-- Counterexample for C1 as stated: the bare §3 invariant holds of a
booster shelf with a stale listed card, yet `_deliver_from_carry` adds a
booster without touching `cards`, breaking `qty == len(cards)`. -/
theorem c1_counterexample :
    ShelfOk ⟨"booster", 1, 10, ["c1"]⟩ ∧
    (deliver_from_carry ⟨1, 0, fun _ => 0⟩ ⟨"1,1", "booster", 9, none⟩
        (fun k => if k = "1,1" then some ⟨"booster", 1, 10, ["c1"]⟩ else none)).shelves "1,1" =
      some ⟨"booster", 2, 10, ["c1"]⟩ ∧
    ¬ ShelfOk ⟨"booster", 2, 10, ["c1"]⟩ := by
  refine ⟨⟨by decide, by decide, fun _ => by decide⟩, ?_, fun hok => ?_⟩
  · simp [deliver_from_carry, deliver_product, ShelfMap.set]
  · have := hok.2.2 (by decide)
    revert this
    decide

/-! ## C7 — restock suggestions -/

theorem suggestion_key_ge_trans : ∀ (a b c : RestockSuggestion),
    suggestion_key_ge a b = true → suggestion_key_ge b c = true →
    suggestion_key_ge a c = true := by
  intro a b c hab hbc
  simp only [suggestion_key_ge, decide_eq_true_eq] at *
  rcases hab with h | ⟨h1, h2⟩ <;> rcases hbc with h' | ⟨h1', h2'⟩
  · exact Or.inl (h'.trans h)
  · exact Or.inl (h1' ▸ h)
  · exact Or.inl (h1 ▸ h')
  · exact Or.inr ⟨h1'.trans h1, h2'.trans h2⟩

theorem suggestion_key_ge_total : ∀ (a b : RestockSuggestion),
    (suggestion_key_ge a b || suggestion_key_ge b a) = true := by
  intro a b
  simp only [suggestion_key_ge, Bool.or_eq_true, decide_eq_true_eq]
  rcases lt_trichotomy a.recommended_qty b.recommended_qty with h | h | h
  · exact Or.inr (Or.inl h)
  · rcases le_total a.avg_daily_units b.avg_daily_units with h2 | h2
    · exact Or.inr (Or.inr ⟨h, h2⟩)
    · exact Or.inl (Or.inr ⟨h.symm, h2⟩)
  · exact Or.inl (Or.inl h)

theorem mem_compute_restock_suggestions {analytics : AnalyticsState} {day : Int}
    {inv : Inventory} {shelves : List (String × ShelfStock)} {lead_time_seconds : ℚ}
    {window_days max_suggestions : Int} {s : RestockSuggestion}
    (hs : s ∈ compute_restock_suggestions analytics day inv shelves lead_time_seconds
      window_days max_suggestions) :
    1 ≤ s.recommended_qty ∧ 0 < s.avg_daily_units ∧
    s.avg_daily_units = sales_avg_daily_units analytics day s.product window_days := by
  unfold compute_restock_suggestions at hs
  have hs2 := List.mem_mergeSort.mp (List.take_subset _ _ hs)
  obtain ⟨p, hpmem, hf⟩ := List.mem_filterMap.mp hs2
  by_cases h1 : sales_avg_daily_units analytics day p window_days ≤ 0
  · rw [if_pos h1] at hf
    exact absurd hf (by simp)
  rw [if_neg h1] at hf
  by_cases h2 : max 0 ⌈(sales_avg_daily_units analytics day p window_days /
      max 1 DAY_DURATION_SECONDS * max 1 lead_time_seconds +
      max 1 (sales_avg_daily_units analytics day p window_days * (1 / 10))) -
      ((current_stock_for_product p inv shelves : Int) : ℚ)⌉ ≤ 0
  · rw [if_pos h2] at hf
    exact absurd hf (by simp)
  rw [if_neg h2] at hf
  injection hf with hv
  subst hv
  exact ⟨by dsimp only; omega, by dsimp only; exact lt_of_not_le h1, by dsimp only⟩

/-- C7: every restock suggestion has `recommended_qty ≥ 1` (non-positive
recommendations are omitted) and a strictly positive trailing-window
average (no suggestion for a product whose average daily units is 0); the
list is sorted descending by `(recommended_qty, avg_daily_units)` and has
at most `max(1, max_suggestions)` entries. -/
theorem c7_restock_suggestions_spec (analytics : AnalyticsState) (day : Int)
    (inv : Inventory) (shelves : List (String × ShelfStock)) (lead_time_seconds : ℚ)
    (window_days max_suggestions : Int) :
    (∀ s ∈ compute_restock_suggestions analytics day inv shelves lead_time_seconds
        window_days max_suggestions,
      1 ≤ s.recommended_qty ∧ 0 < s.avg_daily_units ∧
      s.avg_daily_units = sales_avg_daily_units analytics day s.product window_days) ∧
    (compute_restock_suggestions analytics day inv shelves lead_time_seconds window_days
        max_suggestions).Pairwise (fun a b =>
      b.recommended_qty < a.recommended_qty ∨
      (b.recommended_qty = a.recommended_qty ∧ b.avg_daily_units ≤ a.avg_daily_units)) ∧
    (compute_restock_suggestions analytics day inv shelves lead_time_seconds window_days
        max_suggestions).length ≤ (max 1 max_suggestions).toNat := by
  refine ⟨fun s hs => mem_compute_restock_suggestions hs, ?_, ?_⟩
  · unfold compute_restock_suggestions
    refine List.Pairwise.imp (fun h => ?_)
      (List.Pairwise.sublist (List.take_sublist _ _)
        (List.sorted_mergeSort suggestion_key_ge_trans suggestion_key_ge_total _))
    simpa only [suggestion_key_ge, decide_eq_true_eq] using h
  · unfold compute_restock_suggestions
    exact List.length_take_le _ _

theorem sales_avg_daily_units_concrete : ∀ p, sales_avg_daily_units
    ⟨fun d => if d = 1 then some ⟨fun p => if p = "booster" then 300 else 0⟩ else none⟩
    1 p 1 = (if p = "booster" then (300:ℚ) else 0) := by
  intro p
  unfold sales_avg_daily_units trailing_days
  by_cases hp : p = "booster" <;>
    norm_num [List.range_succ, hp, List.foldl]

theorem compute_restock_suggestions_concrete :
    compute_restock_suggestions
      ⟨fun d => if d = 1 then some ⟨fun p => if p = "booster" then 300 else 0⟩ else none⟩
      1 ⟨0, 0, fun _ => 0⟩ [] 1 1 4 = [⟨"booster", 31, 300, 0, 1⟩] := by
  unfold compute_restock_suggestions
  simp only [forecast_product_keys, List.filterMap_cons, List.filterMap_nil,
    sales_avg_daily_units_concrete]
  norm_num [current_stock_for_product, DAY_DURATION_SECONDS]
  norm_num [show ("deck" = "booster") = False from by simp,
    show ("single_common" = "booster") = False from by simp,
    show ("single_uncommon" = "booster") = False from by simp,
    show ("single_rare" = "booster") = False from by simp,
    show ("single_epic" = "booster") = False from by simp,
    show ("single_legendary" = "booster") = False from by simp]

/-- Witness for C7: a day of 300 booster sales yields the single
suggestion `recommended_qty = 31` with a positive average. -/
theorem c7_restock_suggestions_spec_witness :
    1 ≤ (⟨"booster", 31, 300, 0, 1⟩ : RestockSuggestion).recommended_qty ∧
    0 < (⟨"booster", 31, 300, 0, 1⟩ : RestockSuggestion).avg_daily_units := by
  have h := (c7_restock_suggestions_spec
      ⟨fun d => if d = 1 then some ⟨fun p => if p = "booster" then 300 else 0⟩ else none⟩
      1 ⟨0, 0, fun _ => 0⟩ [] 1 1 4).1
    ⟨"booster", 31, 300, 0, 1⟩
    (by rw [compute_restock_suggestions_concrete]; exact List.mem_singleton.mpr rfl)
  exact ⟨h.1, h.2.1⟩

/-! ## C4 — BFS pathfinding.  Basic path lemmas. -/

theorem walk_chain_append_one {grid : Tile} {blocked : List Tile} :
    ∀ {l : List Tile} {a t : Tile}, walk_chain grid blocked a l →
      adj4 (l.getLastD a) t → is_walkable grid blocked t = true →
      walk_chain grid blocked a (l ++ [t]) := by
  intro l
  induction l with
  | nil =>
    intro a t _ hadj hw
    exact ⟨hadj, hw, trivial⟩
  | cons b l ih =>
    intro a t hc hadj hw
    obtain ⟨hab, hbw, hc'⟩ := hc
    exact ⟨hab, hbw, ih hc' (by rwa [List.getLastD_cons] at hadj) hw⟩

theorem walk_chain_mem_walkable {grid : Tile} {blocked : List Tile} :
    ∀ {l : List Tile} {a t : Tile}, walk_chain grid blocked a l → t ∈ l →
      is_walkable grid blocked t = true := by
  intro l
  induction l with
  | nil => intro a t _ ht; exact absurd ht (List.not_mem_nil t)
  | cons b l ih =>
    intro a t hc ht
    obtain ⟨_, hbw, hc'⟩ := hc
    rcases List.mem_cons.mp ht with rfl | ht
    · exact hbw
    · exact ih hc' ht

theorem path_to_nil {grid : Tile} {blocked : List Tile} {start goal : Tile}
    (h : path_to grid blocked start goal []) : start = goal := h.2

theorem path_to_goal_walkable {grid : Tile} {blocked : List Tile} {start goal : Tile}
    {p : List Tile} (h : path_to grid blocked start goal p) (hne : p ≠ []) :
    is_walkable grid blocked goal = true := by
  obtain ⟨hc, hl⟩ := h
  have hmem : goal ∈ p := by
    rw [← hl]
    obtain ⟨l, b, rfl⟩ : ∃ l b, p = l ++ [b] := ⟨p.dropLast, p.getLast hne,
      (List.dropLast_append_getLast hne).symm⟩
    rw [List.getLastD_concat]
    simp
  exact walk_chain_mem_walkable hc hmem

theorem walkable_mem_bounds {grid : Tile} {blocked : List Tile} {t : Tile}
    (h : is_walkable grid blocked t = true) : t ∈ bounds_finset grid := by
  unfold is_walkable tile_oob at h
  rw [Bool.and_eq_true, Bool.not_eq_true'] at h
  obtain ⟨h1, _⟩ := h
  simp only [Bool.or_eq_false_iff, decide_eq_false_iff_not, not_lt, not_le] at h1
  unfold bounds_finset
  rw [Finset.mem_product, Finset.mem_Ico, Finset.mem_Ico]
  omega

theorem bounds_card {grid : Tile} :
    (bounds_finset grid).card = grid.1.toNat * grid.2.toNat := by
  unfold bounds_finset
  rw [Finset.card_product, Int.card_Ico, Int.card_Ico]
  simp

/-! C4: characterisation of the neighbour-visiting fold. -/

theorem bfs_fold_spec (grid : Tile) (blocked : List Tile) (cur : Tile) :
    ∀ (l : List Tile) (st : BfsState),
    ∃ added : List Tile,
      (l.foldl (bfs_visit grid blocked cur) st).q = st.q ++ added ∧
      (∀ v, v ∈ (l.foldl (bfs_visit grid blocked cur) st).seen ↔ v ∈ st.seen ∨ v ∈ added) ∧
      (∀ v ∈ added, v ∈ l ∧ is_walkable grid blocked v = true ∧ v ∉ st.seen) ∧
      (∀ v ∈ l, is_walkable grid blocked v = true →
        v ∈ (l.foldl (bfs_visit grid blocked cur) st).seen) ∧
      (∀ v ∈ added, (l.foldl (bfs_visit grid blocked cur) st).prev v = some cur) ∧
      (∀ v, v ∉ added → (l.foldl (bfs_visit grid blocked cur) st).prev v = st.prev v) ∧
      (l.foldl (bfs_visit grid blocked cur) st).seen.card = st.seen.card + added.length := by
  intro l
  induction l with
  | nil =>
    intro st
    exact ⟨[], by simp, by simp, by simp, by simp, by simp, fun v _ => rfl, by simp⟩
  | cons n l ih =>
    intro st
    rw [List.foldl_cons]
    by_cases h1 : n ∈ st.seen
    · rw [show bfs_visit grid blocked cur st n = st from by simp [bfs_visit, h1]]
      obtain ⟨added, hq, hseen, hprops, hclos, hprevadd, hprevother, hcard⟩ := ih st
      refine ⟨added, hq, hseen, ?_, ?_, hprevadd, hprevother, hcard⟩
      · intro v hv
        obtain ⟨hmem, hw, hns⟩ := hprops v hv
        exact ⟨List.mem_cons_of_mem _ hmem, hw, hns⟩
      · intro v hv hw
        rcases List.mem_cons.mp hv with rfl | hv
        · exact (hseen v).mpr (Or.inl h1)
        · exact hclos v hv hw
    · by_cases h2 : is_walkable grid blocked n = true
      · rw [show bfs_visit grid blocked cur st n =
            (⟨st.q ++ [n], fun t => if t = n then some cur else st.prev t,
              insert n st.seen⟩ : BfsState) from by simp [bfs_visit, h1, h2]]
        obtain ⟨added, hq, hseen, hprops, hclos, hprevadd, hprevother, hcard⟩ :=
          ih ⟨st.q ++ [n], fun t => if t = n then some cur else st.prev t, insert n st.seen⟩
        have hnotadded : n ∉ added := fun hn =>
          (hprops n hn).2.2 (Finset.mem_insert_self n st.seen)
        refine ⟨n :: added, ?_, ?_, ?_, ?_, ?_, ?_, ?_⟩
        · rw [hq]
          simp
        · intro v
          rw [hseen v]
          simp only [Finset.mem_insert, List.mem_cons]
          tauto
        · intro v hv
          rcases List.mem_cons.mp hv with rfl | hv
          · exact ⟨List.mem_cons_self _ _, h2, h1⟩
          · obtain ⟨hmem, hw, hns⟩ := hprops v hv
            refine ⟨List.mem_cons_of_mem _ hmem, hw, fun hmem2 => hns ?_⟩
            exact Finset.mem_insert_of_mem hmem2
        · intro v hv hw
          rcases List.mem_cons.mp hv with rfl | hv
          · exact (hseen v).mpr (Or.inl (Finset.mem_insert_self v st.seen))
          · exact hclos v hv hw
        · intro v hv
          rcases List.mem_cons.mp hv with rfl | hv
          · rw [hprevother v hnotadded]
            simp
          · exact hprevadd v hv
        · intro v hv
          have hvn : v ≠ n := fun he => hv (he ▸ List.mem_cons_self n added)
          have hvadded : v ∉ added := fun ha => hv (List.mem_cons_of_mem _ ha)
          rw [hprevother v hvadded]
          simp [hvn]
        · rw [hcard]
          rw [Finset.card_insert_of_not_mem h1]
          simp
          omega
      · rw [show bfs_visit grid blocked cur st n = st from by simp [bfs_visit, h1, h2]]
        obtain ⟨added, hq, hseen, hprops, hclos, hprevadd, hprevother, hcard⟩ := ih st
        refine ⟨added, hq, hseen, ?_, ?_, hprevadd, hprevother, hcard⟩
        · intro v hv
          obtain ⟨hmem, hw, hns⟩ := hprops v hv
          exact ⟨List.mem_cons_of_mem _ hmem, hw, hns⟩
        · intro v hv hw
          rcases List.mem_cons.mp hv with rfl | hv
          · exact absurd hw h2
          · exact hclos v hv hw

theorem bfs_expand_spec (grid : Tile) (blocked : List Tile) (cur : Tile) (st : BfsState) :
    ∃ added : List Tile,
      (bfs_expand grid blocked cur st).q = st.q ++ added ∧
      (∀ v, v ∈ (bfs_expand grid blocked cur st).seen ↔ v ∈ st.seen ∨ v ∈ added) ∧
      (∀ v ∈ added, v ∈ neighbors4 cur ∧ is_walkable grid blocked v = true ∧ v ∉ st.seen) ∧
      (∀ v ∈ neighbors4 cur, is_walkable grid blocked v = true →
        v ∈ (bfs_expand grid blocked cur st).seen) ∧
      (∀ v ∈ added, (bfs_expand grid blocked cur st).prev v = some cur) ∧
      (∀ v, v ∉ added → (bfs_expand grid blocked cur st).prev v = st.prev v) ∧
      (bfs_expand grid blocked cur st).seen.card = st.seen.card + added.length :=
  bfs_fold_spec grid blocked cur (neighbors4 cur) st

/-! C4: one step of the BFS loop preserves the invariant. -/

theorem bfs_inv_step {grid : Tile} {blocked : List Tile} {start goal : Tile}
    {cur : Tile} {rest : List Tile} {prev : Tile → Option Tile} {seen : Finset Tile}
    {dep : Tile → Nat}
    (hinv : BfsInv grid blocked start goal ⟨cur :: rest, prev, seen⟩ dep)
    (hcg : ¬ cur = goal) :
    ∃ (dep2 : Tile → Nat) (k : Nat),
      BfsInv grid blocked start goal (bfs_expand grid blocked cur ⟨rest, prev, seen⟩) dep2 ∧
      (bfs_expand grid blocked cur ⟨rest, prev, seen⟩).q.length = rest.length + k ∧
      (bfs_expand grid blocked cur ⟨rest, prev, seen⟩).seen.card = seen.card + k := by
  obtain ⟨added, hq, hseen, hprops, hclos, hprevadd, hprevother, hcard⟩ :=
    bfs_expand_spec grid blocked cur ⟨rest, prev, seen⟩
  have hst : start ∈ seen := hinv.start_seen
  have hcur_seen : cur ∈ seen := hinv.q_seen cur (List.mem_cons_self cur rest)
  have hdisj : ∀ t, t ∈ seen → t ∉ added := fun t ht ha => (hprops t ha).2.2 ht
  classical
  refine ⟨fun t => if t ∈ added then dep cur + 1 else dep t, added.length,
    ⟨?_, ?_, ?_, ?_, ?_, ?_, ?_, ?_, ?_, ?_, ?_⟩, by rw [hq]; simp, hcard⟩
  all_goals
    (have hdep2_seen : ∀ t ∈ seen,
        (fun t => if t ∈ added then dep cur + 1 else dep t) t = dep t :=
      fun t ht => if_neg (hdisj t ht))
  all_goals
    (have hdep2_added : ∀ t ∈ added,
        (fun t => if t ∈ added then dep cur + 1 else dep t) t = dep cur + 1 :=
      fun t ht => if_pos ht)
  all_goals
    (have hrest_seen : ∀ t ∈ rest, t ∈ seen :=
      fun t ht => hinv.q_seen t (List.mem_cons_of_mem cur ht))
  all_goals
    (have hhead : ∀ b ∈ rest, dep cur ≤ dep b :=
      (List.pairwise_cons.mp hinv.q_sorted).1)
  all_goals
    (have hrest_sorted : rest.Pairwise (fun a b => dep a ≤ dep b) :=
      (List.pairwise_cons.mp hinv.q_sorted).2)
  · -- start_seen
    exact (hseen start).mpr (Or.inl hst)
  · -- dep_start
    try dsimp only
    rw [if_neg (hdisj start hst), hinv.dep_start]
  · -- chain
    intro t ht hts
    rcases (hseen t).mp ht with htseen | htadd
    · obtain ⟨p, hp1, hp2, hp3, hp4, hp5⟩ := hinv.chain t htseen hts
      refine ⟨p, ?_, (hseen p).mpr (Or.inl hp2), hp3, hp4, ?_⟩
      · rw [hprevother t (hdisj t htseen)]
        exact hp1
      · dsimp only
        rw [if_neg (hdisj t htseen), if_neg (hdisj p hp2), hp5]
    · obtain ⟨hnb, hw, hnseen⟩ := hprops t htadd
      refine ⟨cur, hprevadd t htadd, (hseen cur).mpr (Or.inl hcur_seen), hnb, hw, ?_⟩
      try dsimp only
      rw [if_pos htadd, if_neg (hdisj cur hcur_seen)]
  · -- q_seen
    intro t ht
    rw [hq] at ht
    rcases List.mem_append.mp ht with ht | ht
    · exact (hseen t).mpr (Or.inl (hrest_seen t ht))
    · exact (hseen t).mpr (Or.inr ht)
  · -- q_sorted
    rw [hq]
    refine List.pairwise_append.mpr ⟨?_, ?_, ?_⟩
    · refine hrest_sorted.imp_of_mem (fun ha hb hr => ?_)
      try dsimp only
      rw [if_neg (hdisj _ (hrest_seen _ ha)), if_neg (hdisj _ (hrest_seen _ hb))]
      exact hr
    · refine List.pairwise_of_forall_mem_list (fun a ha b hb => ?_)
      try dsimp only
      rw [if_pos ha, if_pos hb]
    · intro a ha b hb
      try dsimp only
      rw [if_neg (hdisj _ (hrest_seen _ ha)), if_pos hb]
      have := hinv.q_window cur (List.mem_cons_self cur rest) a (List.mem_cons_of_mem cur ha)
      omega
  · -- q_window
    intro a ha b hb
    rw [hq] at ha hb
    try dsimp only
    rcases List.mem_append.mp ha with ha | ha <;> rcases List.mem_append.mp hb with hb | hb
    · rw [if_neg (hdisj _ (hrest_seen _ ha)), if_neg (hdisj _ (hrest_seen _ hb))]
      exact hinv.q_window a (List.mem_cons_of_mem cur ha) b (List.mem_cons_of_mem cur hb)
    · rw [if_neg (hdisj _ (hrest_seen _ ha)), if_pos hb]
      have := hhead a ha
      omega
    · rw [if_pos ha, if_neg (hdisj _ (hrest_seen _ hb))]
      have := hinv.q_window cur (List.mem_cons_self cur rest) b (List.mem_cons_of_mem cur hb)
      omega
    · rw [if_pos ha, if_pos hb]
      omega
  · -- processed_le
    intro u hu hunq t ht
    have hu_nadd : u ∉ added := fun ha => hunq (by rw [hq]; exact List.mem_append.mpr (Or.inr ha))
    have hu_seen : u ∈ seen := ((hseen u).mp hu).resolve_right hu_nadd
    have hu_nrest : u ∉ rest := fun h => hunq (by rw [hq]; exact List.mem_append.mpr (Or.inl h))
    rw [hq] at ht
    try dsimp only
    rw [if_neg hu_nadd]
    by_cases hucur : u = cur
    · subst hucur
      rcases List.mem_append.mp ht with ht | ht
      · rw [if_neg (hdisj _ (hrest_seen _ ht))]
        exact hhead t ht
      · rw [if_pos ht]
        omega
    · have hu_nq : u ∉ cur :: rest := by
        intro h
        rcases List.mem_cons.mp h with h | h
        · exact hucur h
        · exact hu_nrest h
      have hle := hinv.processed_le u hu_seen hu_nq
      rcases List.mem_append.mp ht with ht | ht
      · rw [if_neg (hdisj _ (hrest_seen _ ht))]
        exact hle t (List.mem_cons_of_mem cur ht)
      · rw [if_pos ht]
        have := hle cur (List.mem_cons_self cur rest)
        omega
  · -- processed_closed
    intro u hu hunq v hvnb hw
    have hu_nadd : u ∉ added := fun ha => hunq (by rw [hq]; exact List.mem_append.mpr (Or.inr ha))
    have hu_seen : u ∈ seen := ((hseen u).mp hu).resolve_right hu_nadd
    have hu_nrest : u ∉ rest := fun h => hunq (by rw [hq]; exact List.mem_append.mpr (Or.inl h))
    by_cases hucur : u = cur
    · have hvmem : v ∈ (bfs_expand grid blocked cur ⟨rest, prev, seen⟩).seen :=
        hclos v (hucur ▸ hvnb) hw
      refine ⟨hvmem, ?_⟩
      have hdu : dep u = dep cur := by rw [hucur]
      try dsimp only
      rw [if_neg hu_nadd, hdu]
      rcases (hseen v).mp hvmem with hvseen | hvadd
      · rw [if_neg (hdisj v hvseen)]
        by_cases hvq : v ∈ cur :: rest
        · exact hinv.q_window cur (List.mem_cons_self cur rest) v hvq
        · have := hinv.processed_le v hvseen hvq cur (List.mem_cons_self cur rest)
          omega
      · rw [if_pos hvadd]
    · have hu_nq : u ∉ cur :: rest := by
        intro h
        rcases List.mem_cons.mp h with h | h
        · exact hucur h
        · exact hu_nrest h
      obtain ⟨hvseen, hvdep⟩ := hinv.processed_closed u hu_seen hu_nq v hvnb hw
      refine ⟨(hseen v).mpr (Or.inl hvseen), ?_⟩
      try dsimp only
      rw [if_neg hu_nadd, if_neg (hdisj v hvseen)]
      exact hvdep
  · -- goal_q
    intro hg
    rw [hq]
    rcases (hseen goal).mp hg with hgseen | hgadd
    · have := hinv.goal_q hgseen
      rcases List.mem_cons.mp this with h | h
      · exact absurd h.symm hcg
      · exact List.mem_append.mpr (Or.inl h)
    · exact List.mem_append.mpr (Or.inr hgadd)
  · -- seen_dom
    intro t ht
    rcases (hseen t).mp ht with htseen | htadd
    · exact hinv.seen_dom htseen
    · exact Finset.mem_insert_of_mem (walkable_mem_bounds (hprops t htadd).2.1)
  · -- dep_lt_card
    intro t ht
    rw [hcard]
    try dsimp only
    rcases (hseen t).mp ht with htseen | htadd
    · rw [if_neg (hdisj t htseen)]
      show dep t < seen.card + added.length
      have h1 : dep t < seen.card := hinv.dep_lt_card t htseen
      omega
    · rw [if_pos htadd]
      show dep cur + 1 < seen.card + added.length
      have h1 : dep cur < seen.card := hinv.dep_lt_card cur hcur_seen
      have h2 : 0 < added.length := List.length_pos.mpr (List.ne_nil_of_mem htadd)
      omega

/-- C4: under the invariant, any walk starting at a seen tile either ends in
`seen` within the depth budget, or the queue holds a tile of depth within the
budget.  This yields both the shortest-path lower bound (at goal pop) and
unreachability (at queue drain). -/
theorem bfs_walk_min {grid : Tile} {blocked : List Tile} {start goal : Tile}
    {q : List Tile} {prev : Tile → Option Tile} {seen : Finset Tile} {dep : Tile → Nat}
    (hinv : BfsInv grid blocked start goal ⟨q, prev, seen⟩ dep) :
    ∀ (p : List Tile) (a : Tile), a ∈ seen → walk_chain grid blocked a p →
      (p.getLastD a ∈ seen ∧ dep (p.getLastD a) ≤ dep a + p.length) ∨
      (∃ w ∈ q, dep w ≤ dep a + p.length) := by
  intro p
  induction p with
  | nil =>
    intro a ha _
    exact Or.inl ⟨ha, by simp⟩
  | cons t rest ih =>
    intro a ha hw
    obtain ⟨hadj, hwt, hrest⟩ := hw
    by_cases haq : a ∈ q
    · exact Or.inr ⟨a, haq, by simp⟩
    · obtain ⟨ht_seen, ht_dep⟩ := hinv.processed_closed a ha haq t hadj hwt
      rcases ih t ht_seen hrest with ⟨h1, h2⟩ | ⟨w, hwq, hwle⟩
      · refine Or.inl ⟨?_, ?_⟩
        · rw [List.getLastD_cons]
          exact h1
        · rw [List.getLastD_cons]
          simp only [List.length_cons]
          omega
      · refine Or.inr ⟨w, hwq, ?_⟩
        simp only [List.length_cons]
        omega

/-- C4: the invariant holds of the initial BFS state built by `bfs_path`,
with the constantly-zero ghost depth. -/
theorem bfs_init_inv (grid : Tile) (blocked : List Tile) (start goal : Tile) :
    BfsInv grid blocked start goal ⟨[start], fun _ => none, {start}⟩ (fun _ => 0) := by
  refine ⟨Finset.mem_singleton_self start, rfl, ?_, ?_, ?_, ?_, ?_, ?_, ?_, ?_, ?_⟩
  · intro t ht hts
    exact absurd (Finset.mem_singleton.mp ht) hts
  · intro t ht
    rw [List.mem_singleton] at ht
    rw [ht]
    exact Finset.mem_singleton_self start
  · exact List.pairwise_singleton _ _
  · intro a _ b _
    exact Nat.zero_le _
  · intro u hu hunq t ht
    exfalso
    apply hunq
    rw [Finset.mem_singleton.mp hu]
    exact List.mem_singleton.mpr rfl
  · intro u hu hunq v hvnb hw
    exfalso
    apply hunq
    rw [Finset.mem_singleton.mp hu]
    exact List.mem_singleton.mpr rfl
  · intro hg
    exact List.mem_singleton.mpr (Finset.mem_singleton.mp hg)
  · intro t ht
    rw [Finset.mem_singleton.mp ht]
    exact Finset.mem_insert_self start _
  · intro t ht
    simp

/-- C4: the fuel `bfs_fuel` satisfies the loop measure at the initial state. -/
theorem bfs_init_measure (grid : Tile) (start : Tile) :
    ([start] : List Tile).length + (insert start (bounds_finset grid)).card + 1 ≤
      bfs_fuel grid + ({start} : Finset Tile).card := by
  have hC : (insert start (bounds_finset grid)).card ≤ (bounds_finset grid).card + 1 :=
    Finset.card_insert_le _ _
  have hB : (bounds_finset grid).card = grid.1.toNat * grid.2.toNat := bounds_card
  simp only [List.length_singleton, Finset.card_singleton, bfs_fuel]
  omega

/-- C4: the main loop theorem.  Starting from any state satisfying the
invariant with enough fuel, `bfs_loop` either returns a predecessor map
witnessing `GoalFound` or returns `none`, in which case no walkable path
from `start` to `goal` exists. -/
theorem bfs_loop_spec {grid : Tile} {blocked : List Tile} {start goal : Tile} :
    ∀ (fuel : Nat) (st : BfsState) (dep : Tile → Nat),
      BfsInv grid blocked start goal st dep →
      st.q.length + (insert start (bounds_finset grid)).card + 1 ≤ fuel + st.seen.card →
      (∀ prev, bfs_loop grid blocked goal fuel st = some prev →
        GoalFound grid blocked start goal prev) ∧
      (bfs_loop grid blocked goal fuel st = none →
        ¬ ∃ p, path_to grid blocked start goal p) := by
  intro fuel
  induction fuel with
  | zero =>
    intro st dep hinv hm
    have h1 : st.seen.card ≤ (insert start (bounds_finset grid)).card :=
      Finset.card_le_card hinv.seen_dom
    exact (by omega : False).elim
  | succ fuel ih =>
    intro st dep hinv hm
    obtain ⟨q, prev, seen⟩ := st
    cases q with
    | nil =>
      constructor
      · intro prev' h
        simp [bfs_loop] at h
      · intro _
        rintro ⟨p, hwc, hlast⟩
        rcases bfs_walk_min hinv p start hinv.start_seen hwc with ⟨hin, _⟩ | ⟨w, hwq, _⟩
        · rw [hlast] at hin
          exact absurd (hinv.goal_q hin) (List.not_mem_nil goal)
        · exact absurd hwq (List.not_mem_nil w)
    | cons cur rest =>
      by_cases hcg : cur = goal
      · constructor
        · intro prev' h
          simp only [bfs_loop] at h
          rw [if_pos hcg] at h
          cases h
          refine ⟨seen, dep, hinv.start_seen, hinv.dep_start, hinv.chain, ?_,
            hinv.dep_lt_card, hinv.seen_dom, ?_⟩
          · exact hcg ▸ hinv.q_seen cur (List.mem_cons_self cur rest)
          · intro p2 hp2
            obtain ⟨hwc, hlast⟩ := hp2
            have hhead : ∀ w ∈ cur :: rest, dep cur ≤ dep w := by
              intro w hw
              rcases List.mem_cons.mp hw with rfl | hw
              · exact le_refl _
              · exact (List.pairwise_cons.mp hinv.q_sorted).1 w hw
            have hdg : dep goal = dep cur := by rw [hcg]
            rcases bfs_walk_min hinv p2 start hinv.start_seen hwc with ⟨_, hle⟩ | ⟨w, hwq, hwle⟩
            · rw [hlast, hinv.dep_start] at hle
              omega
            · have h2 := hhead w hwq
              rw [hinv.dep_start] at hwle
              omega
        · intro h
          simp only [bfs_loop] at h
          rw [if_pos hcg] at h
          simp at h
      · obtain ⟨dep2, k, hinv2, hq2, hc2⟩ := bfs_inv_step hinv hcg
        have hm2 : (bfs_expand grid blocked cur ⟨rest, prev, seen⟩).q.length +
            (insert start (bounds_finset grid)).card + 1 ≤
            fuel + (bfs_expand grid blocked cur ⟨rest, prev, seen⟩).seen.card := by
          rw [hq2, hc2]
          simp only [List.length_cons] at hm
          omega
        have hrec := ih (bfs_expand grid blocked cur ⟨rest, prev, seen⟩) dep2 hinv2 hm2
        constructor
        · intro prev' h
          simp only [bfs_loop] at h
          rw [if_neg hcg] at h
          exact hrec.1 prev' h
        · intro h
          simp only [bfs_loop] at h
          rw [if_neg hcg] at h
          exact hrec.2 h

/-- C4: backward path reconstruction is correct.  For any tile of the seen
set, with fuel exceeding its depth, `path_reconstruct` returns the chained
path from `start` (exclusive) to the tile (inclusive), of length exactly the
tile's depth.  Strong induction on the depth bound `n`. -/
theorem path_reconstruct_spec {grid : Tile} {blocked : List Tile} {start : Tile}
    {prev : Tile → Option Tile} {seen : Finset Tile} {dep : Tile → Nat}
    (hds : dep start = 0)
    (hchain : ∀ t ∈ seen, t ≠ start →
      ∃ u, prev t = some u ∧ u ∈ seen ∧ adj4 u t ∧
        is_walkable grid blocked t = true ∧ dep t = dep u + 1) :
    ∀ (n : Nat) (t : Tile), t ∈ seen → dep t ≤ n →
      ∀ (fuel : Nat), dep t < fuel → ∀ (acc : List Tile),
      ∃ p, path_reconstruct prev start fuel t acc = some (p ++ acc) ∧
        p.length = dep t ∧ walk_chain grid blocked start p ∧ p.getLastD start = t := by
  intro n
  induction n with
  | zero =>
    intro t ht hdt fuel hf acc
    cases fuel with
    | zero => omega
    | succ f =>
      by_cases hts : t = start
      · refine ⟨[], by simp [path_reconstruct, hts], ?_, trivial, by simp [hts]⟩
        simp only [List.length_nil]
        omega
      · obtain ⟨u, hpu, hu_seen, hadj, hwt, hdep⟩ := hchain t ht hts
        omega
  | succ m ihm =>
    intro t ht hdt fuel hf acc
    cases fuel with
    | zero => omega
    | succ f =>
      by_cases hts : t = start
      · refine ⟨[], by simp [path_reconstruct, hts], ?_, trivial, by simp [hts]⟩
        have h0 : dep t = 0 := by rw [hts, hds]
        simp [h0]
      · obtain ⟨u, hpu, hu_seen, hadj, hwt, hdep⟩ := hchain t ht hts
        obtain ⟨p, hrec, hlen, hwc, hlast⟩ :=
          ihm u hu_seen (by omega) f (by omega) (t :: acc)
        refine ⟨p ++ [t], ?_, ?_, ?_, ?_⟩
        · simp [path_reconstruct, hts, hpu, hrec]
        · simp only [List.length_append, List.length_singleton, hlen]
          omega
        · exact walk_chain_append_one hwc (by rw [hlast]; exact hadj) hwt
        · rw [List.getLastD_concat]

/-- C4: a `GoalFound` predecessor map reconstructs, with the standard fuel,
a valid shortest path from `start` to `goal`. -/
theorem goal_found_recon {grid : Tile} {blocked : List Tile} {start goal : Tile}
    {prevm : Tile → Option Tile}
    (hgf : GoalFound grid blocked start goal prevm) :
    ∃ p, path_reconstruct prevm start (bfs_fuel grid) goal [] = some p ∧
      path_to grid blocked start goal p ∧
      ∀ p2, path_to grid blocked start goal p2 → p.length ≤ p2.length := by
  obtain ⟨seen, dep, hst, hds, hchain, hgseen, hdlt, hdom, hmin⟩ := hgf
  have hfg : dep goal < bfs_fuel grid := by
    have h1 := hdlt goal hgseen
    have h2 : seen.card ≤ (insert start (bounds_finset grid)).card :=
      Finset.card_le_card hdom
    have h3 : (insert start (bounds_finset grid)).card ≤ (bounds_finset grid).card + 1 :=
      Finset.card_insert_le _ _
    have h4 : (bounds_finset grid).card = grid.1.toNat * grid.2.toNat := bounds_card
    simp only [bfs_fuel]
    omega
  obtain ⟨p, hrec, hlen, hwc, hlast⟩ :=
    path_reconstruct_spec hds hchain (dep goal) goal hgseen (le_refl _) (bfs_fuel grid) hfg []
  refine ⟨p, by rw [hrec, List.append_nil], ⟨hwc, hlast⟩, ?_⟩
  intro p2 hp2
  rw [hlen]
  exact hmin p2 hp2

/-- C4: when `_bfs_path` returns a path it is a valid walk ending at the
goal, of minimum length among all such walks. -/
theorem bfs_path_some_spec {grid : Tile} {blocked : List Tile} {start goal : Tile}
    {p : List Tile} (h : bfs_path grid blocked start goal = some p) :
    path_to grid blocked start goal p ∧
    ∀ p2, path_to grid blocked start goal p2 → p.length ≤ p2.length := by
  unfold bfs_path at h
  by_cases hsg : start = goal
  · rw [if_pos hsg] at h
    cases h
    exact ⟨⟨trivial, hsg⟩, fun p2 _ => Nat.zero_le _⟩
  · rw [if_neg hsg] at h
    by_cases hwg : is_walkable grid blocked goal = true
    · rw [if_neg (not_not_intro hwg)] at h
      cases hloop : bfs_loop grid blocked goal (bfs_fuel grid)
          ⟨[start], fun _ => none, {start}⟩ with
      | none =>
        simp only [hloop] at h
        simp at h
      | some prevm =>
        simp only [hloop] at h
        have hgf := (bfs_loop_spec (bfs_fuel grid) ⟨[start], fun _ => none, {start}⟩
          (fun _ => 0) (bfs_init_inv grid blocked start goal)
          (bfs_init_measure grid start)).1 prevm hloop
        obtain ⟨p', hrec, hpt, hmin⟩ := goal_found_recon hgf
        rw [hrec] at h
        cases h
        exact ⟨hpt, hmin⟩
    · rw [if_pos hwg] at h
      simp at h

/-- C4: `_bfs_path` returns `None` exactly when the start differs from the
goal and no walkable path exists (a blocked or out-of-bounds goal being a
special case of unreachability). -/
theorem bfs_path_none_iff {grid : Tile} {blocked : List Tile} {start goal : Tile} :
    bfs_path grid blocked start goal = none ↔
      start ≠ goal ∧ ¬ ∃ p, path_to grid blocked start goal p := by
  constructor
  · intro h
    by_cases hsg : start = goal
    · unfold bfs_path at h
      rw [if_pos hsg] at h
      simp at h
    · refine ⟨hsg, ?_⟩
      rintro ⟨p, hp⟩
      by_cases hwg : is_walkable grid blocked goal = true
      · unfold bfs_path at h
        rw [if_neg hsg, if_neg (not_not_intro hwg)] at h
        cases hloop : bfs_loop grid blocked goal (bfs_fuel grid)
            ⟨[start], fun _ => none, {start}⟩ with
        | none =>
          exact (bfs_loop_spec (bfs_fuel grid) ⟨[start], fun _ => none, {start}⟩
            (fun _ => 0) (bfs_init_inv grid blocked start goal)
            (bfs_init_measure grid start)).2 hloop ⟨p, hp⟩
        | some prevm =>
          simp only [hloop] at h
          have hgf := (bfs_loop_spec (bfs_fuel grid) ⟨[start], fun _ => none, {start}⟩
            (fun _ => 0) (bfs_init_inv grid blocked start goal)
            (bfs_init_measure grid start)).1 prevm hloop
          obtain ⟨p', hrec, _, _⟩ := goal_found_recon hgf
          rw [hrec] at h
          simp at h
      · cases p with
        | nil => exact hsg (path_to_nil hp)
        | cons a l => exact hwg (path_to_goal_walkable hp (by simp))
  · rintro ⟨hsg, hnp⟩
    unfold bfs_path
    rw [if_neg hsg]
    by_cases hwg : is_walkable grid blocked goal = true
    · rw [if_neg (not_not_intro hwg)]
      cases hloop : bfs_loop grid blocked goal (bfs_fuel grid)
          ⟨[start], fun _ => none, {start}⟩ with
      | none => simp
      | some prevm =>
        exfalso
        have hgf := (bfs_loop_spec (bfs_fuel grid) ⟨[start], fun _ => none, {start}⟩
          (fun _ => 0) (bfs_init_inv grid blocked start goal)
          (bfs_init_measure grid start)).1 prevm hloop
        obtain ⟨p', _, hpt, _⟩ := goal_found_recon hgf
        exact hnp ⟨p', hpt⟩
    · rw [if_pos hwg]

/-- **C4** (`_bfs_path`, `src/game/sim/actors.py` lines 92-128): the path
returned by the BFS pathfinder is a walk along 4-adjacent, in-bounds,
unblocked tiles ending at the goal; it has minimum length among all such
walks; `None` is returned exactly when the start differs from the goal and
no such walk exists (in particular when the goal tile itself is blocked or
out of bounds); and the caller-side `or []` degradation is empty exactly
when the start equals the goal or the goal is unreachable. -/
theorem c4_bfs_path_correct (grid : Tile) (blocked : List Tile) (start goal : Tile) :
    (∀ p, bfs_path grid blocked start goal = some p →
      path_to grid blocked start goal p ∧
      ∀ p2, path_to grid blocked start goal p2 → p.length ≤ p2.length) ∧
    (bfs_path grid blocked start goal = none ↔
      start ≠ goal ∧ ¬ ∃ p, path_to grid blocked start goal p) ∧
    (bfs_path_or_empty grid blocked start goal = [] ↔
      start = goal ∨ ¬ ∃ p, path_to grid blocked start goal p) := by
  refine ⟨fun p hp => bfs_path_some_spec hp, bfs_path_none_iff, ?_, ?_⟩
  · intro h
    unfold bfs_path_or_empty at h
    cases hbp : bfs_path grid blocked start goal with
    | none => exact Or.inr (bfs_path_none_iff.mp hbp).2
    | some p =>
      rw [hbp] at h
      simp only [Option.getD_some] at h
      subst h
      exact Or.inl (path_to_nil (bfs_path_some_spec hbp).1)
  · rintro (hsg | hnp)
    · unfold bfs_path_or_empty bfs_path
      rw [if_pos hsg]
      rfl
    · by_cases hsg : start = goal
      · unfold bfs_path_or_empty bfs_path
        rw [if_pos hsg]
        rfl
      · have hn : bfs_path grid blocked start goal = none :=
          bfs_path_none_iff.mpr ⟨hsg, hnp⟩
        unfold bfs_path_or_empty
        rw [hn]
        rfl

theorem c4_bfs_path_correct_witness :
    path_to (3, 1) [] (0, 0) (2, 0) [(1, 0), (2, 0)] ∧
    bfs_path_or_empty (3, 1) [] (0, 0) (0, 0) = [] :=
  ⟨((c4_bfs_path_correct (3, 1) [] (0, 0) (2, 0)).1 [(1, 0), (2, 0)] (by decide)).1,
    ((c4_bfs_path_correct (3, 1) [] (0, 0) (0, 0)).2.2).mpr (Or.inl rfl)⟩

end TcgShop
